import Mathlib

/-!
Verification of the SerDeLite serialization core: a shallow embedding of the
ByteBuffer / ByteStream binary codec and the JsonStream / JsonBuffer JSON
builder and pretty-printer, with theorems settling the specification claims.

Machine integers are modelled as Nat (unsigned) or Int (signed) with explicit
reductions modulo 2^w at the points where the C++ code performs a type
conversion.  Bytes in memory are Nat values; the uint8_t parameter type of
ByteBuffer::addByte is modelled by reducing modulo 256 on store.
-/

set_option maxRecDepth 8192

namespace SerDeLite

/-- Endian order tag (Common.h). -/
inductive Endian where
  | Little
  | Big
deriving DecidableEq, Repr

/-- ByteBuffer (ByteBuffer.h/.cpp): a fixed-capacity byte region.
`data` models the backing array (its length stays equal to `capacity` for
buffers produced by the constructor), `length` the used length. -/
structure ByteBuffer where
  data : List Nat
  capacity : Nat
  length : Nat
  order : Endian
deriving DecidableEq, Repr

/-- ByteBuffer constructor: zero-fills the capacity and starts at length 0. -/
def ByteBuffer.mk0 (capacity : Nat) (order : Endian) : ByteBuffer :=
  { data := List.replicate capacity 0, capacity := capacity, length := 0, order := order }

def ByteBuffer.isFull (b : ByteBuffer) : Bool :=
  b.length ≥ b.capacity

def ByteBuffer.getSpaceLeft (b : ByteBuffer) : Nat :=
  b.capacity - b.length

def ByteBuffer.getSize (b : ByteBuffer) : Nat :=
  b.length

/-- ByteBuffer::addByte: fails iff full, else stores the byte (the uint8_t
parameter conversion reduces the value mod 256) and increments length. -/
def ByteBuffer.addByte (b : ByteBuffer) (v : Nat) : Bool × ByteBuffer :=
  if b.isFull then (false, b)
  else (true, { b with data := b.data.set b.length (v % 256), length := b.length + 1 })

/-- ByteBuffer::setLength: fails iff the new length exceeds capacity. -/
def ByteBuffer.setLength (b : ByteBuffer) (n : Nat) : Bool × ByteBuffer :=
  if n > b.capacity then (false, b) else (true, { b with length := n })

/-- ByteBuffer::getByte: indexed read, fails for indices at or beyond length. -/
def ByteBuffer.getByte (b : ByteBuffer) (i : Nat) : Option Nat :=
  if i ≥ b.length then none else some (b.data.getD i 0)

/-- Append a whole list of bytes through addByte, discarding the per-byte
success flag exactly as the C++ write loops do. -/
def ByteBuffer.addBytes (b : ByteBuffer) (l : List Nat) : ByteBuffer :=
  l.foldl (fun acc v => (acc.addByte v).2) b

/-- Well-formedness of a buffer as produced by the C++ constructor: the
backing array spans the capacity, the used length fits, and every cell holds
a byte value. -/
def ByteBuffer.Inv (b : ByteBuffer) : Prop :=
  b.data.length = b.capacity ∧ b.length ≤ b.capacity ∧ ∀ x ∈ b.data, x < 256

instance (b : ByteBuffer) : Decidable b.Inv := by
  unfold ByteBuffer.Inv; infer_instance

/-- ByteStream (ByteStream.h/.cpp): cursor-based reader/writer over a buffer. -/
structure ByteStream where
  buffer : ByteBuffer
  readPos : Nat
deriving DecidableEq, Repr

def ByteStream.canRead (s : ByteStream) (bytesCount : Nat) : Bool :=
  s.readPos + bytesCount ≤ s.buffer.getSize

def ByteStream.canWrite (s : ByteStream) (bytesCount : Nat) : Bool :=
  s.buffer.getSpaceLeft ≥ bytesCount

/-- The byte sequence emitted by ByteStream::writeBits for a value: the loop
iterates over the bytes of the value most-significant-first (Big) or
least-significant-first (Little), each byte being (val >> i) & 0xFF. -/
def bitsToBytes (order : Endian) (val bitSize : Nat) : List Nat :=
  match order with
  | .Big => (List.range (bitSize / 8)).map (fun k => (val >>> (bitSize - 8 * (k + 1))) % 256)
  | .Little => (List.range (bitSize / 8)).map (fun k => (val >>> (8 * k)) % 256)

/-- ByteStream::writeBits: rejects a zero or non-multiple-of-8 bit size and
insufficient space, otherwise appends the bytes of the value in the region's
endian order.  (Under the canWrite guard every addByte in the loop succeeds.) -/
def ByteStream.writeBits (s : ByteStream) (val : Nat) (bitSize : Nat := 64) : Bool × ByteStream :=
  if bitSize = 0 ∨ bitSize % 8 ≠ 0 then (false, s)
  else if ¬ s.canWrite (bitSize / 8) then (false, s)
  else (true, { s with buffer := s.buffer.addBytes (bitsToBytes s.buffer.order val bitSize) })

/-- ByteStream::readBits: rejects a bad bit size and insufficient readable
bytes, otherwise accumulates value |= byte << i over the bytes at the read
cursor and advances it.  (Under the canRead guard every getByte in the loop
succeeds, so the cursor-restoring failure branch of the loop is dead.) -/
def ByteStream.readBits (s : ByteStream) (bitSize : Nat := 64) : Bool × Nat × ByteStream :=
  if bitSize = 0 ∨ bitSize % 8 ≠ 0 then (false, 0, s)
  else if ¬ s.canRead (bitSize / 8) then (false, 0, s)
  else
    let n := bitSize / 8
    let value := (List.range n).foldl
      (fun acc k =>
        acc ||| ((s.buffer.data.getD (s.readPos + k) 0) <<<
          (match s.buffer.order with
           | .Big => bitSize - 8 * (k + 1)
           | .Little => 8 * k))) 0
    (true, value, { s with readPos := s.readPos + n })

def ByteStream.writeUint8 (s : ByteStream) (val : Nat) : Bool × ByteStream :=
  let r := s.buffer.addByte val
  (r.1, { s with buffer := r.2 })

def ByteStream.writeUint16 (s : ByteStream) (val : Nat) : Bool × ByteStream :=
  s.writeBits (val % 2 ^ 16) 16

def ByteStream.writeUint32 (s : ByteStream) (val : Nat) : Bool × ByteStream :=
  s.writeBits (val % 2 ^ 32) 32

def ByteStream.writeUint64 (s : ByteStream) (val : Nat) : Bool × ByteStream :=
  s.writeBits (val % 2 ^ 64)

/-- static_cast of a signed value to an unsigned width (two's complement). -/
def toUnsigned (w : Nat) (v : Int) : Nat :=
  (v % (2 ^ w : Int)).toNat

def ByteStream.writeInt8 (s : ByteStream) (val : Int) : Bool × ByteStream :=
  s.writeBits (toUnsigned 8 val) 8

def ByteStream.writeInt16 (s : ByteStream) (val : Int) : Bool × ByteStream :=
  s.writeBits (toUnsigned 16 val) 16

def ByteStream.writeInt32 (s : ByteStream) (val : Int) : Bool × ByteStream :=
  s.writeBits (toUnsigned 32 val) 32

def ByteStream.writeInt64 (s : ByteStream) (val : Int) : Bool × ByteStream :=
  s.writeBits (toUnsigned 64 val)

/-- ByteStream::writeFloat reinterprets the float's IEEE-754 bit pattern as a
uint32 (memcpy) and routes it through writeBits; the embedding works directly
on the 32-bit pattern. -/
def ByteStream.writeFloat (s : ByteStream) (bits : Nat) : Bool × ByteStream :=
  s.writeBits (bits % 2 ^ 32) 32

/-- ByteStream::writeDouble: as writeFloat with the 64-bit pattern. -/
def ByteStream.writeDouble (s : ByteStream) (bits : Nat) : Bool × ByteStream :=
  s.writeUint64 (bits % 2 ^ 64)

def ByteStream.writeBool (s : ByteStream) (val : Bool) : Bool × ByteStream :=
  s.writeUint8 (if val then 1 else 0)

/-- ByteStream::writeChars: fixed-length raw character run, no framing.
A null pointer is modelled by the caller not invoking this overload; the
canWrite guard makes every addByte in the loop succeed. -/
def ByteStream.writeChars (s : ByteStream) (str : List Nat) : Bool × ByteStream :=
  if ¬ s.canWrite str.length then (false, s)
  else (true, { s with buffer := s.buffer.addBytes str })

/-- ByteStream::writeString: a null string is encoded as writeUint16 0; a
non-null string of length ≤ 65535 with enough space is encoded as a 16-bit
length prefix plus the raw characters, with a snapshot/rollback around the
two sub-writes (dead under the capacity guard, but modelled faithfully). -/
def ByteStream.writeString (s : ByteStream) (str : Option (List Nat)) : Bool × ByteStream :=
  match str with
  | none => s.writeUint16 0
  | some l =>
    if l.length > 65535 ∨ ¬ s.canWrite (2 + l.length) then (false, s)
    else
      let startLen := s.buffer.getSize
      let r1 := s.writeUint16 l.length
      if r1.1 = false then (false, { r1.2 with buffer := (r1.2.buffer.setLength startLen).2 })
      else
        let r2 := r1.2.writeChars l
        if r2.1 = false then (false, { r2.2 with buffer := (r2.2.buffer.setLength startLen).2 })
        else (true, r2.2)

def ByteStream.readUint8 (s : ByteStream) : Bool × Nat × ByteStream :=
  if ¬ s.canRead 1 then (false, 0, s)
  else
    match s.buffer.getByte s.readPos with
    | none => (false, 0, s)
    | some b => (true, b, { s with readPos := s.readPos + 1 })

def ByteStream.readUint16 (s : ByteStream) : Bool × Nat × ByteStream :=
  if ¬ s.canRead 2 then (false, 0, s)
  else
    let r := s.readBits 16
    if r.1 = false then (false, 0, s)
    else (true, r.2.1 % 2 ^ 16, r.2.2)

def ByteStream.readUint32 (s : ByteStream) : Bool × Nat × ByteStream :=
  if ¬ s.canRead 4 then (false, 0, s)
  else
    let r := s.readBits 32
    if r.1 = false then (false, 0, s)
    else (true, r.2.1 % 2 ^ 32, r.2.2)

def ByteStream.readUint64 (s : ByteStream) : Bool × Nat × ByteStream :=
  if ¬ s.canRead 8 then (false, 0, s)
  else
    let r := s.readBits 64
    if r.1 = false then (false, 0, s)
    else (true, r.2.1, r.2.2)

/-- Conversion of a 64-bit unsigned pattern to the int64 value it denotes. -/
def uint64ToInt64 (n : Nat) : Int :=
  if n < 2 ^ 63 then (n : Int) else (n : Int) - 2 ^ 64

/-- static_cast of an int64 value down to a w-bit signed integer
(two's complement wrap). -/
def intCast (w : Nat) (v : Int) : Int :=
  if v % (2 ^ w : Int) < 2 ^ (w - 1) then v % (2 ^ w : Int)
  else v % (2 ^ w : Int) - 2 ^ w

/-- interpretAsSigned (Common.h): rejects bit sizes outside 1..64; otherwise
casts the pattern to int64 and, if the sign bit of the declared width is set,
ors in the mask with all bits at and above the width set (two's-complement
sign extension).  The int64 is modelled through its 64-bit pattern. -/
def interpretAsSigned (num : Nat) (bitSize : Nat) : Bool × Int :=
  if bitSize = 0 ∨ bitSize > 64 then (false, 0)
  else
    let signBit := 1 <<< (bitSize - 1)
    let valueMask := if bitSize = 64 then 0 else 2 ^ 64 - (1 <<< bitSize)
    let dest := num % 2 ^ 64
    let dest := if num &&& signBit ≠ 0 then dest ||| valueMask else dest
    (true, uint64ToInt64 dest)

/-- ByteStream::readInt8: reads the unsigned byte and casts it to int8.
(The source also computes interpretAsSigned(val, 8, sVal) but then assigns
out = static_cast of val itself, which yields the same int8 value.) -/
def ByteStream.readInt8 (s : ByteStream) : Bool × Int × ByteStream :=
  if ¬ s.canRead 1 then (false, 0, s)
  else
    let r := s.readUint8
    if r.1 = false then (false, 0, s)
    else (true, intCast 8 (r.2.1 : Int), r.2.2)

def ByteStream.readInt16 (s : ByteStream) : Bool × Int × ByteStream :=
  if ¬ s.canRead 2 then (false, 0, s)
  else
    let r := s.readUint16
    if r.1 = false then (false, 0, s)
    else (true, intCast 16 (interpretAsSigned r.2.1 16).2, r.2.2)

def ByteStream.readInt32 (s : ByteStream) : Bool × Int × ByteStream :=
  if ¬ s.canRead 4 then (false, 0, s)
  else
    let r := s.readUint32
    if r.1 = false then (false, 0, s)
    else (true, intCast 32 (interpretAsSigned r.2.1 32).2, r.2.2)

def ByteStream.readInt64 (s : ByteStream) : Bool × Int × ByteStream :=
  if ¬ s.canRead 8 then (false, 0, s)
  else
    let r := s.readUint64
    if r.1 = false then (false, 0, s)
    else (true, uint64ToInt64 r.2.1, r.2.2)

/-- ByteStream::readFloat: reads the uint32 pattern (memcpy back to float is
identity on the bit pattern). -/
def ByteStream.readFloat (s : ByteStream) : Bool × Nat × ByteStream :=
  if ¬ s.canRead 4 then (false, 0, s) else s.readUint32

def ByteStream.readDouble (s : ByteStream) : Bool × Nat × ByteStream :=
  if ¬ s.canRead 8 then (false, 0, s) else s.readUint64

def ByteStream.readBool (s : ByteStream) : Bool × Bool × ByteStream :=
  let r := s.readUint8
  if r.1 = false then (false, false, r.2.2)
  else (true, decide (r.2.1 ≠ 0), r.2.2)

/-- ByteStream::readChars: fixed-length raw read; under the canRead guard
every readUint8 in the loop succeeds (the source discards their results). -/
def ByteStream.readChars (s : ByteStream) (length : Nat) : Bool × List Nat × ByteStream :=
  if ¬ s.canRead length then (false, [], s)
  else
    (true, (List.range length).map (fun k => s.buffer.data.getD (s.readPos + k) 0),
     { s with readPos := s.readPos + length })

/-- ByteStream::readString: consumes the 16-bit length prefix through the
ordinary integer read, then validates the destination capacity, then copies.
The returned list is the copied string content (without the terminator). -/
def ByteStream.readString (s : ByteStream) (destCapacity : Nat) : Bool × List Nat × ByteStream :=
  let r := s.readUint16
  if r.1 = false then (false, [], r.2.2)
  else
    let len := r.2.1
    if destCapacity < len + 1 then (false, [], r.2.2)
    else
      let rc := r.2.2.readChars len
      if rc.1 = false then (false, [], rc.2.2)
      else (true, rc.2.1, rc.2.2)

/-- Library magic and version constants (Version.h). -/
def SERDELITE_MAGIC : Nat := 0x53444C56

def SERDELITE_VERSION_MAJOR : Nat := 1

def SERDELITE_VERSION_MINOR : Nat := 1

def SERDELITE_VERSION_PATCH : Nat := 0

/-- ByteStream::writeLibraryHeader: magic (4 bytes) + major/minor/patch. -/
def ByteStream.writeLibraryHeader (s : ByteStream) : Bool × ByteStream :=
  if ¬ s.canWrite 7 then (false, s)
  else
    let r1 := s.writeUint32 SERDELITE_MAGIC
    let r2 := r1.2.writeUint8 SERDELITE_VERSION_MAJOR
    let r3 := r2.2.writeUint8 SERDELITE_VERSION_MINOR
    let r4 := r3.2.writeUint8 SERDELITE_VERSION_PATCH
    (true, r4.2)

/-- ByteStream::verifyLibraryHeader: consumes the 7-byte preamble from the
read cursor; on any failure the cursor is restored to its pre-call value. -/
def ByteStream.verifyLibraryHeader (s : ByteStream) : Bool × ByteStream :=
  if ¬ s.canRead 7 then (false, s)
  else
    let startPos := s.readPos
    let rm := s.readUint32
    if rm.1 = false ∨ rm.2.1 ≠ SERDELITE_MAGIC then (false, { rm.2.2 with readPos := startPos })
    else
      let r1 := rm.2.2.readUint8
      if r1.1 = false then (false, { r1.2.2 with readPos := startPos })
      else
        let r2 := r1.2.2.readUint8
        if r2.1 = false then (false, { r2.2.2 with readPos := startPos })
        else
          let r3 := r2.2.2.readUint8
          if r3.1 = false then (false, { r3.2.2 with readPos := startPos })
          else if r1.2.1 ≠ SERDELITE_VERSION_MAJOR then (false, { r3.2.2 with readPos := startPos })
          else (true, r3.2.2)

/-- JsonStream (JsonStream.h/.cpp): JSON object builder over a ByteBuffer. -/
structure JsonStream where
  buffer : ByteBuffer
  isFirstField : Bool
  isClosed : Bool
deriving DecidableEq, Repr

/-- JsonStream constructor: appends the opening brace (its success flag is
discarded — a full buffer fails silently) and starts Open-Empty. -/
def JsonStream.make (b : ByteBuffer) : JsonStream :=
  { buffer := (b.addByte 123).2, isFirstField := true, isClosed := false }

def JsonStream.canWrite (js : JsonStream) (bytesCount : Nat) : Bool :=
  js.buffer.getSpaceLeft ≥ bytesCount

/-- JsonStream::writeRaw: all-or-nothing raw append under a canWrite guard. -/
def JsonStream.writeRaw (js : JsonStream) (str : List Nat) : Bool × JsonStream :=
  if ¬ js.canWrite str.length then (false, js)
  else (true, { js with buffer := js.buffer.addBytes str })

/-- JsonStream::startField: rejects a closed stream or null key; emits a
comma unless this is the first field, clears isFirstField, then emits the
quoted key and the colon.  Note: no rollback of the comma/quote on a later
failure, and isFirstField is cleared even when the call fails. -/
def JsonStream.startField (js : JsonStream) (key : List Nat) : Bool × JsonStream :=
  if js.isClosed then (false, js)
  else
    let step1 :=
      if js.isFirstField then (true, js)
      else
        let r := js.buffer.addByte 44
        (r.1, { js with buffer := r.2 })
    if step1.1 = false then (false, step1.2)
    else
      let js1 := { step1.2 with isFirstField := false }
      let r2 := js1.buffer.addByte 34
      if r2.1 = false then (false, { js1 with buffer := r2.2 })
      else
        let js2 := { js1 with buffer := r2.2 }
        let r3 := js2.writeRaw key
        if r3.1 = false then (false, r3.2)
        else r3.2.writeRaw [34, 58]

/-- JsonStream::writeBool: startField then the bare literal, no rollback. -/
def JsonStream.writeBool (js : JsonStream) (key : List Nat) (val : Bool) : Bool × JsonStream :=
  let r := js.startField key
  if r.1 = false then (false, r.2)
  else if val then r.2.writeRaw [116, 114, 117, 101]
  else r.2.writeRaw [102, 97, 108, 115, 101]

/-- The escape expansion of one character (JsonStream::writeEscaped cases). -/
def escapeChar (c : Nat) : List Nat :=
  if c = 34 then [92, 34]
  else if c = 92 then [92, 92]
  else if c = 10 then [92, 110]
  else if c = 9 then [92, 116]
  else if c = 13 then [92, 114]
  else if c = 8 then [92, 98]
  else if c = 12 then [92, 102]
  else if c < 32 then
    let hex := fun (n : Nat) => if n < 10 then 48 + n else 55 + n
    [92, 117, 48, 48, hex ((c >>> 4) % 16), hex (c % 16)]
  else [c]

/-- One step of the writeEscaped loop: write the expansion of c (escape
sequences via writeRaw, plain characters via addByte). -/
def JsonStream.writeEscapedStep (js : JsonStream) (c : Nat) : Bool × JsonStream :=
  let e := escapeChar c
  if e.length = 1 then
    let r := js.buffer.addByte c
    (r.1, { js with buffer := r.2 })
  else js.writeRaw e

def JsonStream.writeEscapedLoop (js : JsonStream) : List Nat → Bool × JsonStream
  | [] => (true, js)
  | c :: rest =>
    let r := js.writeEscapedStep c
    if r.1 = false then (false, r.2)
    else r.2.writeEscapedLoop rest

/-- JsonStream::writeEscaped: escapes each character in turn; on a failed
step the region is rolled back to the length from before the call. -/
def JsonStream.writeEscaped (js : JsonStream) (str : List Nat) : Bool × JsonStream :=
  let startLen := js.buffer.getSize
  let r := js.writeEscapedLoop str
  if r.1 = false then (false, { r.2 with buffer := (r.2.buffer.setLength startLen).2 })
  else (true, r.2)

/-- JsonStream::writeString: startField, then null prints the literal null;
otherwise quote, escaped value, quote.  No rollback in this operation itself
(only writeEscaped rolls back its own portion). -/
def JsonStream.writeString (js : JsonStream) (key : List Nat) (val : Option (List Nat)) :
    Bool × JsonStream :=
  let r := js.startField key
  if r.1 = false then (false, r.2)
  else
    match val with
    | none => r.2.writeRaw [110, 117, 108, 108]
    | some l =>
      let r1 := r.2.buffer.addByte 34
      if r1.1 = false then (false, { r.2 with buffer := r1.2 })
      else
        let js1 := { r.2 with buffer := r1.2 }
        let r2 := js1.writeEscaped l
        if r2.1 = false then (false, r2.2)
        else
          let r3 := r2.2.buffer.addByte 34
          (r3.1, { r2.2 with buffer := r3.2 })

/-- JsonStream::writeObject over an arbitrary nested field-writing routine f
(the JsonSerializable toJson callback): key, opening brace, save parent
flags, run f in the fresh-object state, restore.  A failure after the key
step rolls the length back to the pre-call snapshot. -/
def JsonStream.writeObject (js : JsonStream) (key : List Nat)
    (f : JsonStream → Bool × JsonStream) : Bool × JsonStream :=
  let startLen := js.buffer.getSize
  let r := js.startField key
  if r.1 = false then (false, r.2)
  else
    let rb := r.2.buffer.addByte 123
    if rb.1 = false then (false, { r.2 with buffer := (rb.2.setLength startLen).2 })
    else
      let js1 := { r.2 with buffer := rb.2 }
      let parentFirst := js1.isFirstField
      let parentClosed := js1.isClosed
      let js2 := { js1 with isFirstField := true, isClosed := false }
      let rf := f js2
      if rf.1 = false then
        (false,
         { rf.2 with
           buffer := (rf.2.buffer.setLength startLen).2
           isFirstField := parentFirst
           isClosed := parentClosed })
      else (true, { rf.2 with isFirstField := parentFirst, isClosed := parentClosed })

/-- JsonStream::close: idempotent; appends the closing brace, writes a
terminator into the spare byte after the text when one exists (not part of
the length), and marks the stream closed. -/
def JsonStream.close (js : JsonStream) : Bool × JsonStream :=
  if js.isClosed then (true, js)
  else
    let r := js.buffer.addByte 125
    if r.1 = false then (false, { js with buffer := r.2 })
    else
      let b := r.2
      let b' :=
        if b.getSize < b.capacity then { b with data := b.data.set b.getSize 0 }
        else b
      (true, { js with buffer := b', isClosed := true })

/-- JsonStream::getJson: view of the buffer's current bytes and length. -/
def JsonStream.getJson (js : JsonStream) : List Nat :=
  js.buffer.data.take js.buffer.length

/-- JsonBuffer::printIndent: level * tabWidth spaces, nothing for a negative
level. -/
def printIndent (level : Int) (tabWidth : Nat) : List Nat :=
  if level < 0 then [] else List.replicate (level.toNat * tabWidth) 32

/-- The character-by-character scan of JsonBuffer::printPretty, carrying the
previous character (for the escaped-quote check), the indent level and the
quote flag. -/
def prettyAux (tabWidth : Nat) : Option Nat → Int → Bool → List Nat → List Nat
  | _, _, _, [] => []
  | prev, lvl, q, c :: rest =>
    if c = 34 ∧ prev ≠ some 92 then
      c :: prettyAux tabWidth (some c) lvl (!q) rest
    else if q then
      c :: prettyAux tabWidth (some c) lvl q rest
    else if c = 123 ∨ c = 91 then
      c :: 10 :: printIndent (lvl + 1) tabWidth ++ prettyAux tabWidth (some c) (lvl + 1) q rest
    else if c = 125 ∨ c = 93 then
      10 :: printIndent (lvl - 1) tabWidth ++ c :: prettyAux tabWidth (some c) (lvl - 1) q rest
    else if c = 44 then
      c :: 10 :: printIndent lvl tabWidth ++ prettyAux tabWidth (some c) lvl q rest
    else if c = 58 then
      c :: 32 :: prettyAux tabWidth (some c) lvl q rest
    else if c = 32 ∨ c = 9 ∨ c = 10 ∨ c = 13 then
      prettyAux tabWidth (some c) lvl q rest
    else
      c :: prettyAux tabWidth (some c) lvl q rest

/-- JsonBuffer::printPretty: empty input prints nothing; otherwise the scan
output followed by a final newline. -/
def printPretty (data : List Nat) (tabWidth : Nat) : List Nat :=
  if data.length = 0 then [] else prettyAux tabWidth none 0 false data ++ [10]

/-- Whitespace in the sense of the printer's skip branch. -/
def isWS (c : Nat) : Bool :=
  c = 32 ∨ c = 9 ∨ c = 10 ∨ c = 13

/-- The printer's scan meets no whitespace character while its quote flag is
off (so its whitespace-dropping branch never fires).  Tracks exactly the
quote-flag transitions of prettyAux. -/
def noWSOutside : Option Nat → Bool → List Nat → Bool
  | _, _, [] => true
  | prev, q, c :: rest =>
    if c = 34 ∧ prev ≠ some 92 then noWSOutside (some c) (!q) rest
    else if q then noWSOutside (some c) q rest
    else if isWS c then false
    else noWSOutside (some c) q rest

/-- Or-accumulation of a byte list, as the readBits loop performs it. -/
def orFold (l : List Nat) : Nat :=
  l.foldl (fun a x => a ||| x) 0

/-- The two's-complement sign-extension property: the 64-bit pattern of the
signed result agrees with the unsigned source pattern on the low w bits, and
every bit from w up to 63 equals the source pattern's top (w-1) bit. -/
def signExt (w u : Nat) (i : Int) : Prop :=
  ((i % (2 ^ 64 : Int)).toNat % 2 ^ w = u) ∧
  (∀ j, j < 64 → w ≤ j → ((i % (2 ^ 64 : Int)).toNat).testBit j = u.testBit (w - 1))

instance (w u : Nat) (i : Int) : Decidable (signExt w u i) := by
  unfold signExt
  have : ∀ p : Nat, Decidable (∀ j, j < 64 → w ≤ j → p.testBit j = u.testBit (w - 1)) :=
    fun p => Nat.decidableBallLT 64 _
  exact instDecidableAnd

/-! ## Basic buffer lemmas -/

theorem ByteBuffer.addByte_capacity (b : ByteBuffer) (v : Nat) :
    ((b.addByte v).2).capacity = b.capacity := by
  unfold ByteBuffer.addByte; split <;> rfl

theorem ByteBuffer.addByte_order (b : ByteBuffer) (v : Nat) :
    ((b.addByte v).2).order = b.order := by
  unfold ByteBuffer.addByte; split <;> rfl

theorem ByteBuffer.addByte_data_length (b : ByteBuffer) (v : Nat) :
    ((b.addByte v).2).data.length = b.data.length := by
  unfold ByteBuffer.addByte; split <;> simp

theorem ByteBuffer.addBytes_capacity (b : ByteBuffer) (l : List Nat) :
    (b.addBytes l).capacity = b.capacity := by
  induction l generalizing b with
  | nil => rfl
  | cons v l ih =>
    show ((b.addByte v).2.addBytes l).capacity = b.capacity
    rw [ih, ByteBuffer.addByte_capacity]

theorem ByteBuffer.addBytes_order (b : ByteBuffer) (l : List Nat) :
    (b.addBytes l).order = b.order := by
  induction l generalizing b with
  | nil => rfl
  | cons v l ih =>
    show ((b.addByte v).2.addBytes l).order = b.order
    rw [ih, ByteBuffer.addByte_order]

theorem ByteBuffer.addBytes_data_length (b : ByteBuffer) (l : List Nat) :
    (b.addBytes l).data.length = b.data.length := by
  induction l generalizing b with
  | nil => rfl
  | cons v l ih =>
    show ((b.addByte v).2.addBytes l).data.length = b.data.length
    rw [ih, ByteBuffer.addByte_data_length]

/-- Appending a byte run that fits entirely within the remaining capacity
overwrites exactly the cells [length, length + l.length) with the (mod-256
reduced) bytes and extends the length accordingly. -/
theorem ByteBuffer.addBytes_eq (b : ByteBuffer) (l : List Nat)
    (hd : b.data.length = b.capacity) (hsp : b.length + l.length ≤ b.capacity) :
    b.addBytes l =
      { b with
        data := b.data.take b.length ++ l.map (fun v => v % 256) ++
                b.data.drop (b.length + l.length)
        length := b.length + l.length } := by
  induction l generalizing b with
  | nil =>
    cases b
    simp only [ByteBuffer.addBytes, List.foldl_nil, List.map_nil, List.length_nil,
      Nat.add_zero, List.append_nil, List.take_append_drop]
  | cons v l ih =>
    have hlt : b.length < b.capacity := by
      have := hsp; simp only [List.length_cons] at this; omega
    have hdl : b.length < b.data.length := by omega
    have hfull : b.isFull = false := by
      simp only [ByteBuffer.isFull, ge_iff_le, decide_eq_false_iff_not]; omega
    have hb1 : (b.addByte v).2 =
        { b with data := b.data.set b.length (v % 256), length := b.length + 1 } := by
      simp [ByteBuffer.addByte, hfull]
    show ((b.addByte v).2).addBytes l = _
    rw [hb1]
    rw [ih _ (by show (b.data.set b.length (v % 256)).length = b.capacity; simp [hd])
          (by show b.length + 1 + l.length ≤ b.capacity
              simp only [List.length_cons] at hsp; omega)]
    simp only [List.length_cons]
    have hset : b.data.set b.length (v % 256) =
        b.data.take b.length ++ (v % 256) :: b.data.drop (b.length + 1) := by
      rw [List.set_eq_take_append_cons_drop, if_pos hdl]
    have htk : (b.data.set b.length (v % 256)).take (b.length + 1) =
        b.data.take b.length ++ [v % 256] := by
      rw [hset, List.take_append_eq_append_take]
      rw [List.take_of_length_le (l := b.data.take b.length)
            (by simp only [List.length_take]; omega)]
      congr 1
      have h1 : b.length + 1 - (b.data.take b.length).length = 1 := by
        simp only [List.length_take]; omega
      rw [h1]; rfl
    have hdr : (b.data.set b.length (v % 256)).drop (b.length + 1 + l.length) =
        b.data.drop (b.length + (l.length + 1)) := by
      rw [hset, List.drop_append_eq_append_drop]
      rw [List.drop_eq_nil_of_le (by simp only [List.length_take]; omega)]
      have h1 : b.length + 1 + l.length - (b.data.take b.length).length = l.length + 1 := by
        simp only [List.length_take]; omega
      rw [h1, List.nil_append, List.drop_succ_cons, List.drop_drop]
      congr 1; omega
    rw [htk, hdr, show b.length + 1 + l.length = b.length + (l.length + 1) from by omega]
    simp only [ByteBuffer.mk.injEq, List.map_cons, List.append_assoc, List.cons_append,
      List.singleton_append, List.nil_append, and_true, true_and]

/-! ## Pure byte-packing lemmas: readBits decodes what writeBits encodes -/

theorem lor_add_of (i a b : Nat) (ha : a % 2 ^ i = 0) (hb : b < 2 ^ i) :
    a ||| b = a + b := by
  obtain ⟨m, rfl⟩ := Nat.dvd_of_mod_eq_zero ha
  exact (Nat.mul_add_lt_is_or hb m).symm

theorem lor_add_of' (i a b : Nat) (ha : a < 2 ^ i) (hb : b % 2 ^ i = 0) :
    a ||| b = a + b := by
  rw [Nat.lor_comm, lor_add_of i b a hb ha]; omega

theorem orFold_append_single (l : List Nat) (t : Nat) :
    orFold (l ++ [t]) = orFold l ||| t := by
  simp [orFold]

theorem orFold_reverse (l : List Nat) :
    orFold l.reverse = orFold l := by
  unfold orFold
  exact (List.reverse_perm l).foldl_eq'
    (fun x _ y _ z => by rw [Nat.lor_assoc, Nat.lor_assoc, Nat.lor_comm x y]) 0

/-- Little-endian byte decomposition: or-ing the shifted bytes of a value
recovers the value modulo the width. -/
theorem orFold_shifted_bytes (n v : Nat) :
    orFold ((List.range n).map (fun k => ((v >>> (8 * k)) % 256) <<< (8 * k))) =
      v % 2 ^ (8 * n) := by
  induction n with
  | zero => simp [orFold, Nat.mod_one]
  | succ n ih =>
    rw [List.range_succ, List.map_append, List.map_cons, List.map_nil,
      orFold_append_single, ih]
    rw [lor_add_of' (8 * n) _ _ (Nat.mod_lt _ (Nat.pos_pow_of_pos _ (by omega)))
        (by rw [Nat.shiftLeft_eq]; exact Nat.mul_mod_left _ _)]
    rw [Nat.shiftLeft_eq, Nat.shiftRight_eq_div_pow]
    have hsplit : v % (2 ^ (8 * n) * 2 ^ 8) = v % 2 ^ (8 * n) + 2 ^ (8 * n) * (v / 2 ^ (8 * n) % 2 ^ 8) :=
      Nat.mod_mul
    have hpow : 2 ^ (8 * (n + 1)) = 2 ^ (8 * n) * 2 ^ 8 := by
      rw [← Nat.pow_add]; ring_nf
    rw [hpow, hsplit]
    ring_nf

/-- Reindexing a map over a range by k ↦ n - 1 - k reverses the list. -/
theorem map_range_rev (h : Nat → Nat) :
    ∀ n, (List.range n).map (fun k => h (n - 1 - k)) = ((List.range n).map h).reverse := by
  intro n
  induction n with
  | zero => simp
  | succ n ih =>
    conv_lhs => rw [List.range_succ_eq_map]
    conv_rhs => rw [List.range_succ]
    rw [List.map_cons, List.map_map]
    have hbody : ((fun k => h (n + 1 - 1 - k)) ∘ Nat.succ) = fun k => h (n - 1 - k) := by
      funext k
      simp only [Function.comp]
      congr 1
      omega
    rw [hbody, ih]
    rw [List.map_append, List.map_cons, List.map_nil, List.reverse_append,
      List.reverse_cons, List.reverse_nil]
    simp

/-- Big-endian byte decomposition. -/
theorem orFold_shifted_bytes_be (n v : Nat) :
    orFold ((List.range n).map (fun k => ((v >>> (8 * (n - 1 - k))) % 256) <<< (8 * (n - 1 - k)))) =
      v % 2 ^ (8 * n) := by
  rw [map_range_rev (fun j => ((v >>> (8 * j)) % 256) <<< (8 * j)) n,
    orFold_reverse, orFold_shifted_bytes]

theorem bitsToBytes_length (order : Endian) (val w : Nat) :
    (bitsToBytes order val w).length = w / 8 := by
  cases order <;> simp [bitsToBytes]

theorem bitsToBytes_map_mod (order : Endian) (val w : Nat) :
    (bitsToBytes order val w).map (fun v => v % 256) = bitsToBytes order val w := by
  rw [List.map_congr_left (g := id) ?_, List.map_id]
  intro a ha
  cases order <;> simp only [bitsToBytes, List.mem_map] at ha <;>
    obtain ⟨k, _, rfl⟩ := ha <;> simp [Nat.mod_mod_of_dvd]

theorem getD_middle (pre mid post : List Nat) (k : Nat) (hk : k < mid.length) :
    (pre ++ mid ++ post).getD (pre.length + k) 0 = mid.getD k 0 := by
  rw [List.append_assoc, List.getD_eq_getElem?_getD, List.getD_eq_getElem?_getD,
    List.getElem?_append_right (Nat.le_add_right _ _), Nat.add_sub_cancel_left,
    List.getElem?_append_left hk]

theorem getD_middle' (pre mid post : List Nat) (i k : Nat) (hi : i = pre.length)
    (hk : k < mid.length) :
    (pre ++ mid ++ post).getD (i + k) 0 = mid.getD k 0 := by
  subst hi; exact getD_middle pre mid post k hk

/-- ByteStream::writeBits, successful case: the encoded bytes land exactly at
[length, length + w/8) and the length advances. -/
theorem writeBits_eq (s : ByteStream) (val w : Nat) (hw0 : w ≠ 0) (hw8 : w % 8 = 0)
    (hd : s.buffer.data.length = s.buffer.capacity) (hsp : s.canWrite (w / 8) = true) :
    s.writeBits val w =
      (true, { s with buffer := { s.buffer with
          data := s.buffer.data.take s.buffer.length ++ bitsToBytes s.buffer.order val w ++
                  s.buffer.data.drop (s.buffer.length + w / 8)
          length := s.buffer.length + w / 8 } }) := by
  have hn : 1 ≤ w / 8 := Nat.one_le_div_iff (by omega) |>.mpr (by omega)
  have hsp' : s.buffer.capacity - s.buffer.length ≥ w / 8 := by
    simpa [ByteStream.canWrite, ByteBuffer.getSpaceLeft] using hsp
  have hlen : s.buffer.length + w / 8 ≤ s.buffer.capacity := by omega
  unfold ByteStream.writeBits
  rw [if_neg (by omega), if_neg (by simp [hsp])]
  rw [ByteBuffer.addBytes_eq _ _ hd (by rw [bitsToBytes_length]; exact hlen)]
  rw [bitsToBytes_map_mod, bitsToBytes_length]

/-- Round trip at the writeBits/readBits level: writing w bits of a value
in range and reading them back from the same position returns the value and
advances the read cursor by exactly w/8 bytes. -/
theorem writeBits_readBits (s : ByteStream) (w val : Nat)
    (hw0 : w ≠ 0) (hw8 : w % 8 = 0) (hw64 : w ≤ 64)
    (hd : s.buffer.data.length = s.buffer.capacity)
    (hpos : s.readPos = s.buffer.length)
    (hsp : s.canWrite (w / 8) = true)
    (hval : val < 2 ^ w) :
    (s.writeBits val w).1 = true ∧
    (s.writeBits val w).2.readBits w =
      (true, val, { (s.writeBits val w).2 with readPos := s.readPos + w / 8 }) := by
  have hn : 1 ≤ w / 8 := Nat.one_le_div_iff (by omega) |>.mpr (by omega)
  have hsp' : s.buffer.capacity - s.buffer.length ≥ w / 8 := by
    simpa [ByteStream.canWrite, ByteBuffer.getSpaceLeft] using hsp
  have hlen : s.buffer.length ≤ s.buffer.data.length := by omega
  rw [writeBits_eq s val w hw0 hw8 hd hsp]
  refine ⟨rfl, ?_⟩
  unfold ByteStream.readBits
  rw [if_neg (by omega), if_neg (by
    simp only [ByteStream.canRead, ByteBuffer.getSize, hpos, not_not, decide_eq_true_eq]
    omega)]
  have htake : (s.buffer.data.take s.buffer.length).length = s.buffer.length :=
    List.length_take_of_le hlen
  have hmid : ∀ k, k < w / 8 →
      ((s.buffer.data.take s.buffer.length ++ bitsToBytes s.buffer.order val w ++
        s.buffer.data.drop (s.buffer.length + w / 8)).getD (s.readPos + k) 0) =
      (bitsToBytes s.buffer.order val w).getD k 0 := by
    intro k hk
    exact getD_middle' _ _ _ _ k (by rw [htake, hpos]) (by rw [bitsToBytes_length]; exact hk)
  have hfold : ((List.range (w / 8)).foldl
      (fun acc k =>
        acc ||| ((s.buffer.data.take s.buffer.length ++ bitsToBytes s.buffer.order val w ++
          s.buffer.data.drop (s.buffer.length + w / 8)).getD (s.readPos + k) 0 <<<
          (match s.buffer.order with
           | .Big => w - 8 * (k + 1)
           | .Little => 8 * k))) 0) = val := by
    rw [List.foldl_ext _ (fun acc k =>
        acc ||| ((bitsToBytes s.buffer.order val w).getD k 0 <<<
          (match s.buffer.order with
           | .Big => w - 8 * (k + 1)
           | .Little => 8 * k))) 0
      (fun a k hkmem => by rw [hmid k (List.mem_range.mp hkmem)])]
    have hw : w = 8 * (w / 8) := by omega
    rcases hor : s.buffer.order with _ | _
    · -- Little
      simp only [bitsToBytes]
      rw [List.foldl_ext _ (fun acc k => acc ||| ((val >>> (8 * k)) % 256) <<< (8 * k)) 0
        (fun a k hkmem => by
          rw [List.getD_eq_getElem?_getD, List.getElem?_map,
            List.getElem?_range (List.mem_range.mp hkmem)]
          rfl)]
      rw [← List.foldl_map (fun k => ((val >>> (8 * k)) % 256) <<< (8 * k))
        (fun a x => a ||| x) (List.range (w / 8)) 0]
      show orFold _ = val
      rw [orFold_shifted_bytes, ← hw, Nat.mod_eq_of_lt hval]
    · -- Big
      simp only [bitsToBytes]
      rw [List.foldl_ext _ (fun acc k =>
          acc ||| ((val >>> (8 * (w / 8 - 1 - k))) % 256) <<< (8 * (w / 8 - 1 - k))) 0
        (fun a k hkmem => by
          have hk := List.mem_range.mp hkmem
          rw [List.getD_eq_getElem?_getD, List.getElem?_map,
            List.getElem?_range hk]
          have hsh : w - 8 * (k + 1) = 8 * (w / 8 - 1 - k) := by omega
          simp [hsh])]
      rw [← List.foldl_map (fun k => ((val >>> (8 * (w / 8 - 1 - k))) % 256) <<< (8 * (w / 8 - 1 - k)))
        (fun a x => a ||| x) (List.range (w / 8)) 0]
      show orFold _ = val
      rw [orFold_shifted_bytes_be, ← hw, Nat.mod_eq_of_lt hval]
  simp only [hfold]

/-! ## Sign interpretation lemmas -/

/-- interpretAsSigned computes exactly the two's-complement reading of a
w-bit pattern, for the widths the codec uses it at. -/
theorem interpretAsSigned_spec (w u : Nat) (hw : w = 8 ∨ w = 16 ∨ w = 32)
    (hu : u < 2 ^ w) :
    interpretAsSigned u w =
      (true, if u < 2 ^ (w - 1) then (u : Int) else (u : Int) - 2 ^ w) := by
  have hw64 : w ≠ 64 := by rcases hw with rfl | rfl | rfl <;> omega
  have hwpos : ¬ (w = 0 ∨ w > 64) := by rcases hw with rfl | rfl | rfl <;> omega
  have hand : u &&& (1 <<< (w - 1)) = (u.testBit (w - 1)).toNat * 2 ^ (w - 1) := by
    rw [Nat.shiftLeft_eq, Nat.one_mul, Nat.and_two_pow]
  have hdiv : u / 2 ^ (w - 1) < 2 := by
    apply Nat.div_lt_of_lt_mul
    calc u < 2 ^ w := hu
    _ = 2 ^ (w - 1) * 2 := by rcases hw with rfl | rfl | rfl <;> norm_num
  have htb : u.testBit (w - 1) = decide (2 ^ (w - 1) ≤ u) := by
    rw [Nat.testBit_to_div_mod]
    rcases Nat.lt_or_ge u (2 ^ (w - 1)) with h | h
    · rw [Nat.div_eq_of_lt h]; simp [Nat.not_le.mpr h]
    · have h1 : u / 2 ^ (w - 1) = 1 := by
        have := Nat.div_le_div_right (c := 2 ^ (w - 1)) h
        rw [Nat.div_self (Nat.pos_pow_of_pos _ (by omega))] at this
        omega
      simp [h1, h]
  have hmod : u % 2 ^ 64 = u := Nat.mod_eq_of_lt (by
    calc u < 2 ^ w := hu
    _ ≤ 2 ^ 64 := Nat.pow_le_pow_right (by omega) (by omega))
  unfold interpretAsSigned
  rw [if_neg hwpos]
  simp only [hw64, if_false, hmod]
  by_cases hcase : 2 ^ (w - 1) ≤ u
  · have hne : u &&& (1 <<< (w - 1)) ≠ 0 := by
      rw [hand, htb, decide_eq_true hcase]
      have : (2 : Nat) ^ (w - 1) > 0 := Nat.pos_pow_of_pos _ (by omega)
      simp only [Bool.toNat_true, Nat.one_mul]
      omega
    rw [if_pos hne, if_neg (by omega)]
    have hmask : (2 : Nat) ^ 64 - 1 <<< w = 2 ^ 64 - 2 ^ w := by
      rw [Nat.shiftLeft_eq, Nat.one_mul]
    have hor : u ||| (2 ^ 64 - 1 <<< w) = u + (2 ^ 64 - 2 ^ w) := by
      rw [hmask]
      refine lor_add_of' w u _ hu ?_
      have hdvd : (2 : Nat) ^ w ∣ 2 ^ 64 - 2 ^ w := by
        have : (2 : Nat) ^ 64 - 2 ^ w = 2 ^ w * (2 ^ (64 - w) - 1) := by
          rw [Nat.mul_sub_one ]
          rw [← Nat.pow_add]
          congr 2
          omega
        rw [this]
        exact Dvd.intro _ rfl
      exact (Nat.mod_eq_zero_of_dvd hdvd)
    rw [hor]
    unfold uint64ToInt64
    rw [if_neg (by
      have h2 : (2 : Nat) ^ w ≤ 2 ^ 64 := Nat.pow_le_pow_right (by omega) (by omega)
      have h3 : (2 : Nat) ^ 63 ≤ 2 ^ 64 - 2 ^ w := by
        rcases hw with rfl | rfl | rfl <;> norm_num
      omega)]
    congr 1
    have h2 : (2 : Nat) ^ w ≤ 2 ^ 64 := Nat.pow_le_pow_right (by omega) (by omega)
    rw [Nat.cast_add, Nat.cast_sub h2]
    push_cast
    ring
  · have heq : u &&& (1 <<< (w - 1)) = 0 := by
      rw [hand, htb, decide_eq_false (by omega)]
      simp
    rw [if_neg (by simpa using heq), if_pos (by omega)]
    unfold uint64ToInt64
    rw [if_pos (by
      have : (2 : Nat) ^ (w - 1) ≤ 2 ^ 63 := by
        rcases hw with rfl | rfl | rfl <;> norm_num
      omega)]

theorem intCast_id (w : Nat) (hw : w = 8 ∨ w = 16 ∨ w = 32 ∨ w = 64) (v : Int)
    (hlo : -(2 ^ (w - 1)) ≤ v) (hhi : v < 2 ^ (w - 1)) : intCast w v = v := by
  unfold intCast
  rcases hw with rfl | rfl | rfl | rfl <;> (norm_num; split <;> omega)

/-! ## Per-type roundtrip lemmas -/

theorem readBits_canRead (s : ByteStream) (w : Nat) (h : (s.readBits w).1 = true) :
    s.canRead (w / 8) = true := by
  unfold ByteStream.readBits at h
  split at h
  · simp at h
  · split at h
    · simp at h
    · next hc => simpa using hc

theorem writeUint8_rt (s : ByteStream) (v : Nat)
    (hd : s.buffer.data.length = s.buffer.capacity) (hpos : s.readPos = s.buffer.length)
    (hsp : s.canWrite 1 = true) (hv : v < 256) :
    (s.writeUint8 v).1 = true ∧
    (s.writeUint8 v).2.readUint8 =
      (true, v, { (s.writeUint8 v).2 with readPos := s.readPos + 1 }) := by
  have hsp' : s.buffer.capacity - s.buffer.length ≥ 1 := by
    simpa [ByteStream.canWrite, ByteBuffer.getSpaceLeft] using hsp
  have hfull : s.buffer.isFull = false := by
    simp only [ByteBuffer.isFull, ge_iff_le, decide_eq_false_iff_not]; omega
  have hab : s.buffer.addByte v =
      (true,
       { s.buffer with
         data := s.buffer.data.set s.buffer.length (v % 256)
         length := s.buffer.length + 1 }) := by
    simp [ByteBuffer.addByte, hfull]
  unfold ByteStream.writeUint8
  rw [hab]
  refine ⟨rfl, ?_⟩
  unfold ByteStream.readUint8
  rw [if_neg (by
    simp only [ByteStream.canRead, ByteBuffer.getSize, not_not, decide_eq_true_eq, hpos]
    omega)]
  unfold ByteBuffer.getByte
  rw [if_neg (by simp only [not_le, hpos]; omega)]
  rw [List.getD_eq_getElem?_getD, hpos, List.getElem?_set_self (by omega),
    Nat.mod_eq_of_lt hv]
  rfl

theorem writeUint16_rt (s : ByteStream) (v : Nat)
    (hd : s.buffer.data.length = s.buffer.capacity) (hpos : s.readPos = s.buffer.length)
    (hsp : s.canWrite 2 = true) (hv : v < 2 ^ 16) :
    (s.writeUint16 v).1 = true ∧
    (s.writeUint16 v).2.readUint16 =
      (true, v, { (s.writeUint16 v).2 with readPos := s.readPos + 2 }) := by
  have hmod : v % 2 ^ 16 = v := Nat.mod_eq_of_lt hv
  have h := writeBits_readBits s 16 (v % 2 ^ 16) (by omega) (by omega) (by omega) hd hpos
    hsp (by omega)
  have hcr : ((s.writeBits (v % 2 ^ 16) 16).2.readBits 16).1 = true := by rw [h.2]
  have hcr2 := readBits_canRead _ _ hcr
  unfold ByteStream.writeUint16
  refine ⟨h.1, ?_⟩
  unfold ByteStream.readUint16
  rw [if_neg (not_not_intro hcr2)]
  simp only [h.2]
  simp [hmod]
  all_goals omega

theorem writeUint32_rt (s : ByteStream) (v : Nat)
    (hd : s.buffer.data.length = s.buffer.capacity) (hpos : s.readPos = s.buffer.length)
    (hsp : s.canWrite 4 = true) (hv : v < 2 ^ 32) :
    (s.writeUint32 v).1 = true ∧
    (s.writeUint32 v).2.readUint32 =
      (true, v, { (s.writeUint32 v).2 with readPos := s.readPos + 4 }) := by
  have hmod : v % 2 ^ 32 = v := Nat.mod_eq_of_lt hv
  have h := writeBits_readBits s 32 (v % 2 ^ 32) (by omega) (by omega) (by omega) hd hpos
    hsp (by omega)
  have hcr : ((s.writeBits (v % 2 ^ 32) 32).2.readBits 32).1 = true := by rw [h.2]
  have hcr2 := readBits_canRead _ _ hcr
  unfold ByteStream.writeUint32
  refine ⟨h.1, ?_⟩
  unfold ByteStream.readUint32
  rw [if_neg (not_not_intro hcr2)]
  simp only [h.2]
  simp [hmod]
  all_goals omega

theorem writeUint64_rt (s : ByteStream) (v : Nat)
    (hd : s.buffer.data.length = s.buffer.capacity) (hpos : s.readPos = s.buffer.length)
    (hsp : s.canWrite 8 = true) (hv : v < 2 ^ 64) :
    (s.writeUint64 v).1 = true ∧
    (s.writeUint64 v).2.readUint64 =
      (true, v, { (s.writeUint64 v).2 with readPos := s.readPos + 8 }) := by
  have hmod : v % 2 ^ 64 = v := Nat.mod_eq_of_lt hv
  have h := writeBits_readBits s 64 (v % 2 ^ 64) (by omega) (by omega) (by omega) hd hpos
    hsp (by omega)
  have hcr : ((s.writeBits (v % 2 ^ 64)).2.readBits 64).1 = true := by rw [h.2]
  have hcr2 := readBits_canRead _ _ hcr
  unfold ByteStream.writeUint64
  refine ⟨h.1, ?_⟩
  unfold ByteStream.readUint64
  rw [if_neg (not_not_intro hcr2)]
  simp only [h.2]
  simp [hmod]
  all_goals omega

theorem readUint8_canRead (s : ByteStream) (h : (s.readUint8).1 = true) :
    s.canRead 1 = true := by
  unfold ByteStream.readUint8 at h
  split at h
  · simp at h
  · next hc => simpa using hc

theorem readUint16_canRead (s : ByteStream) (h : (s.readUint16).1 = true) :
    s.canRead 2 = true := by
  unfold ByteStream.readUint16 at h
  split at h
  · simp at h
  · next hc => simpa using hc

theorem readUint32_canRead (s : ByteStream) (h : (s.readUint32).1 = true) :
    s.canRead 4 = true := by
  unfold ByteStream.readUint32 at h
  split at h
  · simp at h
  · next hc => simpa using hc

theorem readUint64_canRead (s : ByteStream) (h : (s.readUint64).1 = true) :
    s.canRead 8 = true := by
  unfold ByteStream.readUint64 at h
  split at h
  · simp at h
  · next hc => simpa using hc

theorem writeBits8_readUint8 (s : ByteStream) (v : Nat)
    (hd : s.buffer.data.length = s.buffer.capacity) (hpos : s.readPos = s.buffer.length)
    (hsp : s.canWrite 1 = true) (hv : v < 256) :
    (s.writeBits v 8).1 = true ∧
    (s.writeBits v 8).2.readUint8 =
      (true, v, { (s.writeBits v 8).2 with readPos := s.readPos + 1 }) := by
  have hsp' : s.buffer.capacity - s.buffer.length ≥ 1 := by
    simpa [ByteStream.canWrite, ByteBuffer.getSpaceLeft] using hsp
  have hbb : bitsToBytes s.buffer.order v 8 = [v % 256] := by
    cases s.buffer.order <;> simp [bitsToBytes, List.range_succ]
  rw [writeBits_eq s v 8 (by omega) (by omega) hd hsp]
  refine ⟨rfl, ?_⟩
  unfold ByteStream.readUint8
  rw [if_neg (by
    simp only [ByteStream.canRead, ByteBuffer.getSize, not_not, decide_eq_true_eq, hpos]
    omega)]
  unfold ByteBuffer.getByte
  rw [if_neg (by simp only [not_le, hpos]; omega)]
  have hlen : s.buffer.length ≤ s.buffer.data.length := by omega
  rw [show (8 : Nat) / 8 = 1 from rfl]
  have hgd : (s.buffer.data.take s.buffer.length ++ bitsToBytes s.buffer.order v 8 ++
      s.buffer.data.drop (s.buffer.length + 1)).getD s.readPos 0 = v := by
    have h0 := getD_middle' (s.buffer.data.take s.buffer.length)
      (bitsToBytes s.buffer.order v 8)
      (s.buffer.data.drop (s.buffer.length + 1)) s.readPos 0
      (by rw [List.length_take_of_le hlen, hpos])
      (by rw [bitsToBytes_length]; omega)
    simp only [Nat.add_zero] at h0
    rw [h0, hbb]
    simpa using Nat.mod_eq_of_lt hv
  rw [hgd]

theorem writeInt8_rt (s : ByteStream) (v : Int)
    (hd : s.buffer.data.length = s.buffer.capacity) (hpos : s.readPos = s.buffer.length)
    (hsp : s.canWrite 1 = true) (hlo : -(2 ^ 7) ≤ v) (hhi : v < 2 ^ 7) :
    (s.writeInt8 v).1 = true ∧
    (s.writeInt8 v).2.readInt8 =
      (true, v, { (s.writeInt8 v).2 with readPos := s.readPos + 1 }) := by
  have hu : toUnsigned 8 v < 256 := by unfold toUnsigned; omega
  have h := writeBits8_readUint8 s (toUnsigned 8 v) hd hpos hsp hu
  unfold ByteStream.writeInt8
  refine ⟨h.1, ?_⟩
  unfold ByteStream.readInt8
  have hcr := readUint8_canRead _ (by rw [h.2])
  rw [if_neg (not_not_intro hcr)]
  simp only [h.2]
  have hval : intCast 8 ((toUnsigned 8 v : Nat) : Int) = v := by
    simp only [intCast, toUnsigned]
    split <;> omega
  simp [hval]

theorem writeInt16_rt (s : ByteStream) (v : Int)
    (hd : s.buffer.data.length = s.buffer.capacity) (hpos : s.readPos = s.buffer.length)
    (hsp : s.canWrite 2 = true) (hlo : -(2 ^ 15) ≤ v) (hhi : v < 2 ^ 15) :
    (s.writeInt16 v).1 = true ∧
    (s.writeInt16 v).2.readInt16 =
      (true, v, { (s.writeInt16 v).2 with readPos := s.readPos + 2 }) := by
  have hu : toUnsigned 16 v < 2 ^ 16 := by unfold toUnsigned; omega
  have heq : s.writeInt16 v = s.writeUint16 (toUnsigned 16 v) := by
    unfold ByteStream.writeInt16 ByteStream.writeUint16
    rw [Nat.mod_eq_of_lt hu]
  have h := writeUint16_rt s (toUnsigned 16 v) hd hpos hsp hu
  rw [heq]
  refine ⟨h.1, ?_⟩
  unfold ByteStream.readInt16
  have hcr := readUint16_canRead _ (by rw [h.2])
  rw [if_neg (not_not_intro hcr)]
  simp only [h.2]
  rw [interpretAsSigned_spec 16 _ (by omega) hu]
  simp
  all_goals split <;> simp only [intCast, toUnsigned] <;> split <;> omega

theorem writeInt32_rt (s : ByteStream) (v : Int)
    (hd : s.buffer.data.length = s.buffer.capacity) (hpos : s.readPos = s.buffer.length)
    (hsp : s.canWrite 4 = true) (hlo : -(2 ^ 31) ≤ v) (hhi : v < 2 ^ 31) :
    (s.writeInt32 v).1 = true ∧
    (s.writeInt32 v).2.readInt32 =
      (true, v, { (s.writeInt32 v).2 with readPos := s.readPos + 4 }) := by
  have hu : toUnsigned 32 v < 2 ^ 32 := by unfold toUnsigned; omega
  have heq : s.writeInt32 v = s.writeUint32 (toUnsigned 32 v) := by
    unfold ByteStream.writeInt32 ByteStream.writeUint32
    rw [Nat.mod_eq_of_lt hu]
  have h := writeUint32_rt s (toUnsigned 32 v) hd hpos hsp hu
  rw [heq]
  refine ⟨h.1, ?_⟩
  unfold ByteStream.readInt32
  have hcr := readUint32_canRead _ (by rw [h.2])
  rw [if_neg (not_not_intro hcr)]
  simp only [h.2]
  rw [interpretAsSigned_spec 32 _ (by omega) hu]
  simp
  all_goals split <;> simp only [intCast, toUnsigned] <;> split <;> omega

theorem writeInt64_rt (s : ByteStream) (v : Int)
    (hd : s.buffer.data.length = s.buffer.capacity) (hpos : s.readPos = s.buffer.length)
    (hsp : s.canWrite 8 = true) (hlo : -(2 ^ 63) ≤ v) (hhi : v < 2 ^ 63) :
    (s.writeInt64 v).1 = true ∧
    (s.writeInt64 v).2.readInt64 =
      (true, v, { (s.writeInt64 v).2 with readPos := s.readPos + 8 }) := by
  have hu : toUnsigned 64 v < 2 ^ 64 := by unfold toUnsigned; omega
  have heq : s.writeInt64 v = s.writeUint64 (toUnsigned 64 v) := by
    unfold ByteStream.writeInt64 ByteStream.writeUint64
    rw [Nat.mod_eq_of_lt hu]
  have h := writeUint64_rt s (toUnsigned 64 v) hd hpos hsp hu
  rw [heq]
  refine ⟨h.1, ?_⟩
  unfold ByteStream.readInt64
  have hcr := readUint64_canRead _ (by rw [h.2])
  rw [if_neg (not_not_intro hcr)]
  simp only [h.2]
  have hval : uint64ToInt64 (toUnsigned 64 v) = v := by
    unfold uint64ToInt64 toUnsigned
    split <;> omega
  simp [hval]

theorem writeFloat_rt (s : ByteStream) (bits : Nat)
    (hd : s.buffer.data.length = s.buffer.capacity) (hpos : s.readPos = s.buffer.length)
    (hsp : s.canWrite 4 = true) (hv : bits < 2 ^ 32) :
    (s.writeFloat bits).1 = true ∧
    (s.writeFloat bits).2.readFloat =
      (true, bits, { (s.writeFloat bits).2 with readPos := s.readPos + 4 }) := by
  have h := writeUint32_rt s bits hd hpos hsp hv
  have heq : s.writeFloat bits = s.writeUint32 bits := rfl
  rw [heq]
  refine ⟨h.1, ?_⟩
  unfold ByteStream.readFloat
  have hcr := readUint32_canRead _ (by rw [h.2])
  rw [if_neg (not_not_intro hcr), h.2]

theorem writeDouble_rt (s : ByteStream) (bits : Nat)
    (hd : s.buffer.data.length = s.buffer.capacity) (hpos : s.readPos = s.buffer.length)
    (hsp : s.canWrite 8 = true) (hv : bits < 2 ^ 64) :
    (s.writeDouble bits).1 = true ∧
    (s.writeDouble bits).2.readDouble =
      (true, bits, { (s.writeDouble bits).2 with readPos := s.readPos + 8 }) := by
  have h := writeUint64_rt s bits hd hpos hsp hv
  have heq : s.writeDouble bits = s.writeUint64 bits := by
    unfold ByteStream.writeDouble
    rw [Nat.mod_eq_of_lt hv]
  rw [heq]
  refine ⟨h.1, ?_⟩
  unfold ByteStream.readDouble
  have hcr := readUint64_canRead _ (by rw [h.2])
  rw [if_neg (not_not_intro hcr), h.2]

theorem writeBool_rt (s : ByteStream) (b : Bool)
    (hd : s.buffer.data.length = s.buffer.capacity) (hpos : s.readPos = s.buffer.length)
    (hsp : s.canWrite 1 = true) :
    (s.writeBool b).1 = true ∧
    (s.writeBool b).2.readBool =
      (true, b, { (s.writeBool b).2 with readPos := s.readPos + 1 }) := by
  have h := writeUint8_rt s (if b then 1 else 0) hd hpos hsp (by cases b <;> norm_num)
  unfold ByteStream.writeBool
  refine ⟨h.1, ?_⟩
  unfold ByteStream.readBool
  simp only [h.2]
  cases b <;> simp

/-! ## Claim theorems -/

/-- C1: for every primitive value (unsigned and signed integers of 8/16/32/64
bits, float and double taken as their IEEE bit patterns, bool) and for both
endian orders (the stream's order is universally quantified), writing the
value with the BinaryCodec write operation into a region with sufficient
space and reading it back with the mirror read operation from the same
position succeeds and returns a value bit-for-bit equal to the original,
advancing the read cursor by exactly the value's width. -/
theorem C1_primitive_roundtrip (s : ByteStream)
    (hd : s.buffer.data.length = s.buffer.capacity)
    (hpos : s.readPos = s.buffer.length) :
    (∀ v, v < 2 ^ 8 → s.canWrite 1 = true →
      (s.writeUint8 v).1 = true ∧ ((s.writeUint8 v).2.readUint8).1 = true ∧
      ((s.writeUint8 v).2.readUint8).2.1 = v ∧
      ((s.writeUint8 v).2.readUint8).2.2.readPos = s.readPos + 1) ∧
    (∀ v, v < 2 ^ 16 → s.canWrite 2 = true →
      (s.writeUint16 v).1 = true ∧ ((s.writeUint16 v).2.readUint16).1 = true ∧
      ((s.writeUint16 v).2.readUint16).2.1 = v ∧
      ((s.writeUint16 v).2.readUint16).2.2.readPos = s.readPos + 2) ∧
    (∀ v, v < 2 ^ 32 → s.canWrite 4 = true →
      (s.writeUint32 v).1 = true ∧ ((s.writeUint32 v).2.readUint32).1 = true ∧
      ((s.writeUint32 v).2.readUint32).2.1 = v ∧
      ((s.writeUint32 v).2.readUint32).2.2.readPos = s.readPos + 4) ∧
    (∀ v, v < 2 ^ 64 → s.canWrite 8 = true →
      (s.writeUint64 v).1 = true ∧ ((s.writeUint64 v).2.readUint64).1 = true ∧
      ((s.writeUint64 v).2.readUint64).2.1 = v ∧
      ((s.writeUint64 v).2.readUint64).2.2.readPos = s.readPos + 8) ∧
    (∀ v : Int, -(2 ^ 7) ≤ v → v < 2 ^ 7 → s.canWrite 1 = true →
      (s.writeInt8 v).1 = true ∧ ((s.writeInt8 v).2.readInt8).1 = true ∧
      ((s.writeInt8 v).2.readInt8).2.1 = v ∧
      ((s.writeInt8 v).2.readInt8).2.2.readPos = s.readPos + 1) ∧
    (∀ v : Int, -(2 ^ 15) ≤ v → v < 2 ^ 15 → s.canWrite 2 = true →
      (s.writeInt16 v).1 = true ∧ ((s.writeInt16 v).2.readInt16).1 = true ∧
      ((s.writeInt16 v).2.readInt16).2.1 = v ∧
      ((s.writeInt16 v).2.readInt16).2.2.readPos = s.readPos + 2) ∧
    (∀ v : Int, -(2 ^ 31) ≤ v → v < 2 ^ 31 → s.canWrite 4 = true →
      (s.writeInt32 v).1 = true ∧ ((s.writeInt32 v).2.readInt32).1 = true ∧
      ((s.writeInt32 v).2.readInt32).2.1 = v ∧
      ((s.writeInt32 v).2.readInt32).2.2.readPos = s.readPos + 4) ∧
    (∀ v : Int, -(2 ^ 63) ≤ v → v < 2 ^ 63 → s.canWrite 8 = true →
      (s.writeInt64 v).1 = true ∧ ((s.writeInt64 v).2.readInt64).1 = true ∧
      ((s.writeInt64 v).2.readInt64).2.1 = v ∧
      ((s.writeInt64 v).2.readInt64).2.2.readPos = s.readPos + 8) ∧
    (∀ bits, bits < 2 ^ 32 → s.canWrite 4 = true →
      (s.writeFloat bits).1 = true ∧ ((s.writeFloat bits).2.readFloat).1 = true ∧
      ((s.writeFloat bits).2.readFloat).2.1 = bits ∧
      ((s.writeFloat bits).2.readFloat).2.2.readPos = s.readPos + 4) ∧
    (∀ bits, bits < 2 ^ 64 → s.canWrite 8 = true →
      (s.writeDouble bits).1 = true ∧ ((s.writeDouble bits).2.readDouble).1 = true ∧
      ((s.writeDouble bits).2.readDouble).2.1 = bits ∧
      ((s.writeDouble bits).2.readDouble).2.2.readPos = s.readPos + 8) ∧
    (∀ b : Bool, s.canWrite 1 = true →
      (s.writeBool b).1 = true ∧ ((s.writeBool b).2.readBool).1 = true ∧
      ((s.writeBool b).2.readBool).2.1 = b ∧
      ((s.writeBool b).2.readBool).2.2.readPos = s.readPos + 1) := by
  refine ⟨?_, ?_, ?_, ?_, ?_, ?_, ?_, ?_, ?_, ?_, ?_⟩
  · intro v hv hsp
    have h := writeUint8_rt s v hd hpos hsp hv
    exact ⟨h.1, by rw [h.2], by rw [h.2], by rw [h.2]⟩
  · intro v hv hsp
    have h := writeUint16_rt s v hd hpos hsp hv
    exact ⟨h.1, by rw [h.2], by rw [h.2], by rw [h.2]⟩
  · intro v hv hsp
    have h := writeUint32_rt s v hd hpos hsp hv
    exact ⟨h.1, by rw [h.2], by rw [h.2], by rw [h.2]⟩
  · intro v hv hsp
    have h := writeUint64_rt s v hd hpos hsp hv
    exact ⟨h.1, by rw [h.2], by rw [h.2], by rw [h.2]⟩
  · intro v hlo hhi hsp
    have h := writeInt8_rt s v hd hpos hsp hlo hhi
    exact ⟨h.1, by rw [h.2], by rw [h.2], by rw [h.2]⟩
  · intro v hlo hhi hsp
    have h := writeInt16_rt s v hd hpos hsp hlo hhi
    exact ⟨h.1, by rw [h.2], by rw [h.2], by rw [h.2]⟩
  · intro v hlo hhi hsp
    have h := writeInt32_rt s v hd hpos hsp hlo hhi
    exact ⟨h.1, by rw [h.2], by rw [h.2], by rw [h.2]⟩
  · intro v hlo hhi hsp
    have h := writeInt64_rt s v hd hpos hsp hlo hhi
    exact ⟨h.1, by rw [h.2], by rw [h.2], by rw [h.2]⟩
  · intro bits hv hsp
    have h := writeFloat_rt s bits hd hpos hsp hv
    exact ⟨h.1, by rw [h.2], by rw [h.2], by rw [h.2]⟩
  · intro bits hv hsp
    have h := writeDouble_rt s bits hd hpos hsp hv
    exact ⟨h.1, by rw [h.2], by rw [h.2], by rw [h.2]⟩
  · intro b hsp
    have h := writeBool_rt s b hd hpos hsp
    exact ⟨h.1, by rw [h.2], by rw [h.2], by rw [h.2]⟩

/-- Witness for C1 at concrete inputs: a 16-byte big-endian stream round-trips
the u32 0x12345678 and a little-endian stream round-trips the int16 -2. -/
theorem C1_primitive_roundtrip_witness :
    (((⟨ByteBuffer.mk0 16 Endian.Big, 0⟩ : ByteStream).writeUint32
        0x12345678).2.readUint32).2.1 = 0x12345678 ∧
    (((⟨ByteBuffer.mk0 16 Endian.Little, 0⟩ : ByteStream).writeInt16
        (-2)).2.readInt16).2.1 = -2 := by
  constructor
  · exact ((C1_primitive_roundtrip ⟨ByteBuffer.mk0 16 Endian.Big, 0⟩ (by decide)
      rfl).2.2.1 0x12345678 (by decide) (by decide)).2.2.1
  · exact ((C1_primitive_roundtrip ⟨ByteBuffer.mk0 16 Endian.Little, 0⟩ (by decide)
      rfl).2.2.2.2.2.1 (-2) (by decide) (by decide) (by decide)).2.2.1

/-! ## Read-cursor lemmas and header verification -/

theorem readBits_result (s : ByteStream) (w : Nat) (h : (s.readBits w).1 = true) :
    (s.readBits w).2.2 = { s with readPos := s.readPos + w / 8 } := by
  unfold ByteStream.readBits at h ⊢
  split at h
  · simp at h
  · split at h
    · simp at h
    · next h1 h2 =>
      rw [if_neg h1, if_neg h2]

theorem readBits_success (s : ByteStream) (w : Nat) (hw0 : w ≠ 0) (hw8 : w % 8 = 0)
    (hc : s.canRead (w / 8) = true) : (s.readBits w).1 = true := by
  unfold ByteStream.readBits
  rw [if_neg (by omega), if_neg (not_not_intro hc)]

theorem readUint8_eq (s : ByteStream) (hc : s.canRead 1 = true) :
    s.readUint8 =
      (true, s.buffer.data.getD s.readPos 0, { s with readPos := s.readPos + 1 }) := by
  have hlt : s.readPos < s.buffer.length := by
    have := hc
    simp only [ByteStream.canRead, ByteBuffer.getSize, decide_eq_true_eq] at this
    omega
  unfold ByteStream.readUint8 ByteBuffer.getByte
  rw [if_neg (not_not_intro hc), if_neg (by omega)]

theorem readUint32_eq (s : ByteStream) (hc : s.canRead 4 = true) :
    s.readUint32 =
      (true, (s.readBits 32).2.1 % 2 ^ 32, { s with readPos := s.readPos + 4 }) := by
  have hb := readBits_success s 32 (by omega) (by omega) hc
  unfold ByteStream.readUint32
  rw [if_neg (not_not_intro hc), if_neg (by rw [hb]; simp)]
  rw [readBits_result s 32 hb]

theorem readUint16_eq (s : ByteStream) (hc : s.canRead 2 = true) :
    s.readUint16 =
      (true, (s.readBits 16).2.1 % 2 ^ 16, { s with readPos := s.readPos + 2 }) := by
  have hb := readBits_success s 16 (by omega) (by omega) hc
  unfold ByteStream.readUint16
  rw [if_neg (not_not_intro hc), if_neg (by rw [hb]; simp)]
  rw [readBits_result s 16 hb]

theorem canRead_mono (s : ByteStream) (m n : Nat) (hmn : m ≤ n)
    (h : s.canRead n = true) : s.canRead m = true := by
  simp only [ByteStream.canRead, ByteBuffer.getSize, decide_eq_true_eq] at h ⊢
  omega

theorem canRead_shift (s : ByteStream) (k m n : Nat) (hkm : k + m ≤ n)
    (h : s.canRead n = true) :
    ByteStream.canRead { s with readPos := s.readPos + k } m = true := by
  simp only [ByteStream.canRead, ByteBuffer.getSize, decide_eq_true_eq] at h ⊢
  omega

/-- C4: verifyLibraryHeader succeeds exactly when at least 7 bytes are
available at the read cursor, the first 4 bytes decode (in the region's
endian order, through the ordinary uint32 read) to the magic constant, and
the fifth byte equals the codec's own major version; the minor and patch
bytes are unconstrained.  On failure the read cursor is unchanged, on
success it advances by exactly 7. -/
theorem C4_verifyLibraryHeader (s : ByteStream) :
    ((s.verifyLibraryHeader).1 = true ↔
      (s.canRead 7 = true ∧ (s.readUint32).2.1 = SERDELITE_MAGIC ∧
       s.buffer.getByte (s.readPos + 4) = some SERDELITE_VERSION_MAJOR)) ∧
    ((s.verifyLibraryHeader).1 = false →
      (s.verifyLibraryHeader).2.readPos = s.readPos) ∧
    ((s.verifyLibraryHeader).1 = true →
      (s.verifyLibraryHeader).2.readPos = s.readPos + 7) := by
  by_cases h7 : s.canRead 7 = true
  · have hc4 : s.canRead 4 = true := canRead_mono s 4 7 (by omega) h7
    have hm := readUint32_eq s hc4
    have hc5 : ByteStream.canRead { s with readPos := s.readPos + 4 } 1 = true :=
      canRead_shift s 4 1 7 (by omega) h7
    have hc6 : ByteStream.canRead { s with readPos := s.readPos + 4 + 1 } 1 = true := by
      have := canRead_shift s 5 1 7 (by omega) h7
      simpa [Nat.add_assoc] using this
    have hc7 : ByteStream.canRead { s with readPos := s.readPos + 4 + 1 + 1 } 1 = true := by
      have := canRead_shift s 6 1 7 (by omega) h7
      simpa [Nat.add_assoc] using this
    have h1 := readUint8_eq _ hc5
    have h2 := readUint8_eq _ hc6
    have h3 := readUint8_eq _ hc7
    have hgb : s.buffer.getByte (s.readPos + 4) = some (s.buffer.data.getD (s.readPos + 4) 0) := by
      unfold ByteBuffer.getByte
      rw [if_neg (by
        simp only [ByteStream.canRead, ByteBuffer.getSize, decide_eq_true_eq] at h7
        omega)]
    unfold ByteStream.verifyLibraryHeader
    rw [if_neg (not_not_intro h7), hm]
    by_cases hmagic : (s.readBits 32).2.1 % 2 ^ 32 = SERDELITE_MAGIC
    · rw [if_neg (not_or.mpr ⟨by simp, not_not_intro hmagic⟩)]
      simp only [h1, h2, h3]
      by_cases hmajor : s.buffer.data.getD (s.readPos + 4) 0 = SERDELITE_VERSION_MAJOR
      · rw [if_neg (by simp), if_neg (by simp), if_neg (by simp),
          if_neg (not_not_intro hmajor)]
        refine ⟨?_, ?_, ?_⟩
        · constructor
          · intro _
            refine ⟨h7, hmagic, by rw [hgb, hmajor]⟩
          · intro _; rfl
        · intro hfalse; simp at hfalse
        · intro _
          show s.readPos + 4 + 1 + 1 + 1 = s.readPos + 7
          omega
      · rw [if_neg (by simp), if_neg (by simp), if_neg (by simp),
          if_pos hmajor]
        refine ⟨?_, ?_, ?_⟩
        · constructor
          · intro hfalse; simp at hfalse
          · intro hcontr
            rw [hgb] at hcontr
            exact absurd (Option.some.inj hcontr.2.2) hmajor
        · intro _; rfl
        · intro htrue; simp at htrue
    · rw [if_pos (Or.inr hmagic)]
      refine ⟨?_, ?_, ?_⟩
      · constructor
        · intro hfalse; simp at hfalse
        · intro hcontr
          exact absurd hcontr.2.1 hmagic
      · intro _; rfl
      · intro htrue; simp at htrue
  · unfold ByteStream.verifyLibraryHeader
    rw [if_pos (by simpa using h7)]
    refine ⟨?_, ?_, ?_⟩
    · constructor
      · intro hfalse; simp at hfalse
      · intro hcontr; exact absurd hcontr.1 h7
    · intro _; rfl
    · intro htrue; simp at htrue

/-- Witness for C4: a freshly written library header on a 16-byte big-endian
buffer verifies successfully and advances the cursor by 7; the same stream
with a corrupted major byte is rejected with the cursor unchanged. -/
theorem C4_verifyLibraryHeader_witness :
    ((⟨⟨[0x53, 0x44, 0x4C, 0x56, 1, 1, 0, 0], 8, 7, Endian.Big⟩, 0⟩ :
        ByteStream).verifyLibraryHeader).1 = true ∧
    ((⟨⟨[0x53, 0x44, 0x4C, 0x56, 1, 1, 0, 0], 8, 7, Endian.Big⟩, 0⟩ :
        ByteStream).verifyLibraryHeader).2.readPos = 0 + 7 ∧
    ((⟨⟨[0x53, 0x44, 0x4C, 0x56, 2, 1, 0, 0], 8, 7, Endian.Big⟩, 0⟩ :
        ByteStream).verifyLibraryHeader).1 = false ∧
    ((⟨⟨[0x53, 0x44, 0x4C, 0x56, 2, 1, 0, 0], 8, 7, Endian.Big⟩, 0⟩ :
        ByteStream).verifyLibraryHeader).2.readPos = 0 := by
  have hgood := C4_verifyLibraryHeader
    ⟨⟨[0x53, 0x44, 0x4C, 0x56, 1, 1, 0, 0], 8, 7, Endian.Big⟩, 0⟩
  have hbad := C4_verifyLibraryHeader
    ⟨⟨[0x53, 0x44, 0x4C, 0x56, 2, 1, 0, 0], 8, 7, Endian.Big⟩, 0⟩
  have hgood1 := hgood.1.mpr (by refine ⟨by decide, by decide, by decide⟩)
  have hbad1 : ((⟨⟨[0x53, 0x44, 0x4C, 0x56, 2, 1, 0, 0], 8, 7, Endian.Big⟩, 0⟩ :
      ByteStream).verifyLibraryHeader).1 = false := by
    by_contra hcon
    have := hbad.1.mp (by revert hcon; cases h : ((⟨⟨[0x53, 0x44, 0x4C, 0x56, 2, 1, 0, 0], 8, 7,
      Endian.Big⟩, 0⟩ : ByteStream).verifyLibraryHeader).1 <;> simp)
    exact absurd this.2.2 (by decide)
  exact ⟨hgood1, hgood.2.2 hgood1, hbad1, hbad.2.1 hbad1⟩

/-- C5: when the stream holds a 16-bit length prefix followed by that many
bytes but the destination capacity is smaller than the prefixed length plus
one, readString fails, copies no string bytes, and the read cursor has
nevertheless advanced past the two prefix bytes. -/
theorem C5_readString_cursor_asymmetry (s : ByteStream) (destCapacity : Nat)
    (havail : s.canRead (2 + (s.readUint16).2.1) = true)
    (hsmall : destCapacity < (s.readUint16).2.1 + 1) :
    (s.readString destCapacity).1 = false ∧
    (s.readString destCapacity).2.1 = [] ∧
    (s.readString destCapacity).2.2.readPos = s.readPos + 2 := by
  have hc2 : s.canRead 2 = true := canRead_mono s 2 _ (by omega) havail
  have h16 := readUint16_eq s hc2
  unfold ByteStream.readString
  rw [h16]
  rw [if_neg (by simp)]
  rw [if_pos (by
    have := hsmall
    rw [h16] at this
    exact this)]
  exact ⟨rfl, rfl, rfl⟩

/-- Witness for C5: a stream holding the encoding of "Hero" read into a
3-byte destination fails with the cursor at 2. -/
theorem C5_readString_cursor_asymmetry_witness :
    ((⟨⟨[0, 4, 72, 101, 114, 111], 6, 6, Endian.Big⟩, 0⟩ :
        ByteStream).readString 3).1 = false ∧
    ((⟨⟨[0, 4, 72, 101, 114, 111], 6, 6, Endian.Big⟩, 0⟩ :
        ByteStream).readString 3).2.1 = [] ∧
    ((⟨⟨[0, 4, 72, 101, 114, 111], 6, 6, Endian.Big⟩, 0⟩ :
        ByteStream).readString 3).2.2.readPos = 0 + 2 :=
  C5_readString_cursor_asymmetry
    ⟨⟨[0, 4, 72, 101, 114, 111], 6, 6, Endian.Big⟩, 0⟩ 3 (by decide) (by decide)

/-- C10: writeString with a null pointer succeeds whenever two bytes remain,
appending only a zero-valued 16-bit prefix, and reading that encoding back
with a destination capacity of at least one succeeds and yields the empty
string. -/
theorem C10_null_string_roundtrip (s : ByteStream) (destCapacity : Nat)
    (hd : s.buffer.data.length = s.buffer.capacity)
    (hpos : s.readPos = s.buffer.length)
    (hsp : s.canWrite 2 = true) (hdc : 1 ≤ destCapacity) :
    (s.writeString none).1 = true ∧
    (s.writeString none).2.buffer.data =
      s.buffer.data.take s.buffer.length ++ [0, 0] ++
        s.buffer.data.drop (s.buffer.length + 2) ∧
    (s.writeString none).2.buffer.length = s.buffer.length + 2 ∧
    ((s.writeString none).2.readString destCapacity).1 = true ∧
    ((s.writeString none).2.readString destCapacity).2.1 = [] ∧
    ((s.writeString none).2.readString destCapacity).2.2.readPos = s.readPos + 2 := by
  have hbb : bitsToBytes s.buffer.order (0 % 2 ^ 16) 16 = [0, 0] := by
    cases s.buffer.order <;> simp [bitsToBytes, List.range_succ]
  have heq : s.writeString none = s.writeBits (0 % 2 ^ 16) 16 := rfl
  have hwb := writeBits_eq s (0 % 2 ^ 16) 16 (by omega) (by omega) hd hsp
  have hrt := writeUint16_rt s 0 hd hpos hsp (by omega)
  have h16 : (s.writeString none).2.readUint16 =
      (true, 0, { (s.writeString none).2 with readPos := s.readPos + 2 }) := hrt.2
  have hlen2 : (s.writeString none).2.buffer.length = s.buffer.length + 2 := by
    rw [heq, hwb]
  have hc0 : ByteStream.canRead
      { (s.writeString none).2 with readPos := s.readPos + 2 } 0 = true := by
    simp only [ByteStream.canRead, ByteBuffer.getSize, decide_eq_true_eq]
    show s.readPos + 2 + 0 ≤ (s.writeString none).2.buffer.length
    rw [hlen2]
    omega
  have hchars : ByteStream.readChars
      { (s.writeString none).2 with readPos := s.readPos + 2 } 0 =
      (true, [], { (s.writeString none).2 with readPos := s.readPos + 2 }) := by
    unfold ByteStream.readChars
    rw [if_neg (not_not_intro hc0)]
    simp
  have hrs : (s.writeString none).2.readString destCapacity =
      (true, [], { (s.writeString none).2 with readPos := s.readPos + 2 }) := by
    unfold ByteStream.readString
    rw [h16, if_neg (by simp), if_neg (show ¬ (destCapacity < 0 + 1) by omega), hchars]
    simp
  refine ⟨hrt.1, by rw [heq, hwb, hbb], hlen2, by rw [hrs], by rw [hrs], by rw [hrs]⟩

/-- Witness for C10: on a fresh 4-byte little-endian stream, the null-string
write appends 00 00 and reads back as the empty string. -/
theorem C10_null_string_roundtrip_witness :
    (((⟨ByteBuffer.mk0 4 Endian.Little, 0⟩ : ByteStream).writeString none).1 = true) ∧
    (((⟨ByteBuffer.mk0 4 Endian.Little, 0⟩ :
        ByteStream).writeString none).2.readString 1).2.1 = [] :=
  have h := C10_null_string_roundtrip ⟨ByteBuffer.mk0 4 Endian.Little, 0⟩ 1
    (by decide) rfl (by decide) (by decide)
  ⟨h.1, h.2.2.2.2.1⟩

theorem take_pre_mid (pre mid post : List Nat) (n : Nat) (hn : n = pre.length + mid.length) :
    (pre ++ mid ++ post).take n = pre ++ mid := by
  subst hn
  rw [List.append_assoc, List.take_append_eq_append_take,
    List.take_of_length_le (by omega),
    List.take_append_eq_append_take, Nat.add_sub_cancel_left,
    List.take_of_length_le (by omega), Nat.sub_self, List.take_zero, List.append_nil]

theorem drop_pre_mid (pre mid post : List Nat) (n k : Nat) (hn : n = pre.length + mid.length) :
    (pre ++ mid ++ post).drop (n + k) = post.drop k := by
  subst hn
  rw [List.append_assoc, List.drop_append_eq_append_drop,
    List.drop_eq_nil_of_le (by omega),
    List.drop_append_eq_append_drop, List.nil_append]
  rw [show pre.length + mid.length + k - pre.length = mid.length + k from by omega]
  rw [List.drop_eq_nil_of_le (by omega), List.nil_append,
    show mid.length + k - mid.length = k from by omega]

/-- C7: writeString on a non-null string of length at most 65535 with enough
space appends exactly a 16-bit length prefix in the stream's endian order
followed by the raw characters with no terminator; a longer string fails and
appends nothing; and writing "Hero" to a big-endian stream yields exactly the
bytes 00 04 48 65 72 6F. -/
theorem C7_writeString_encoding (s : ByteStream) (l : List Nat)
    (hd : s.buffer.data.length = s.buffer.capacity) :
    (l.length > 65535 → s.writeString (some l) = (false, s)) ∧
    (l.length ≤ 65535 → s.canWrite (2 + l.length) = true →
      (s.writeString (some l)).1 = true ∧
      (s.writeString (some l)).2.buffer.length = s.buffer.length + (2 + l.length) ∧
      (s.writeString (some l)).2.buffer.data =
        s.buffer.data.take s.buffer.length ++
          (bitsToBytes s.buffer.order l.length 16 ++ l.map (fun v => v % 256)) ++
          s.buffer.data.drop (s.buffer.length + (2 + l.length))) ∧
    (((⟨ByteBuffer.mk0 8 Endian.Big, 0⟩ : ByteStream).writeString
        (some [72, 101, 114, 111])).1 = true ∧
     ((⟨ByteBuffer.mk0 8 Endian.Big, 0⟩ : ByteStream).writeString
        (some [72, 101, 114, 111])).2.buffer.data.take 6 =
       [0x00, 0x04, 0x48, 0x65, 0x72, 0x6F]) := by
  refine ⟨?_, ?_, by decide, by decide⟩
  · intro hlong
    unfold ByteStream.writeString
    dsimp only
    rw [if_pos (Or.inl hlong)]
  · intro hshort hsp
    have hsp' : s.buffer.capacity - s.buffer.length ≥ 2 + l.length := by
      simpa [ByteStream.canWrite, ByteBuffer.getSpaceLeft] using hsp
    have hmod : l.length % 2 ^ 16 = l.length := Nat.mod_eq_of_lt (by omega)
    have hsp2 : s.canWrite 2 = true := by
      simp only [ByteStream.canWrite, ByteBuffer.getSpaceLeft, ge_iff_le, decide_eq_true_eq]
      omega
    have hwb := writeBits_eq s (l.length % 2 ^ 16) 16 (by omega) (by omega) hd hsp2
    have hlb : (bitsToBytes s.buffer.order (l.length % 2 ^ 16) 16).length = 2 :=
      bitsToBytes_length _ _ _
    unfold ByteStream.writeString
    dsimp only
    rw [if_neg (by
      refine not_or.mpr ⟨by omega, not_not_intro ?_⟩
      exact hsp)]
    have hr1 : s.writeUint16 l.length = s.writeBits (l.length % 2 ^ 16) 16 := rfl
    rw [hr1, hwb]
    rw [if_neg (by simp)]
    have hcw2 : ByteStream.canWrite
        { s with buffer := { s.buffer with
            data := s.buffer.data.take s.buffer.length ++
                    bitsToBytes s.buffer.order (l.length % 2 ^ 16) 16 ++
                    s.buffer.data.drop (s.buffer.length + 16 / 8)
            length := s.buffer.length + 16 / 8 } } l.length = true := by
      simp only [ByteStream.canWrite, ByteBuffer.getSpaceLeft, ge_iff_le, decide_eq_true_eq]
      show l.length ≤ s.buffer.capacity - (s.buffer.length + 16 / 8)
      omega
    unfold ByteStream.writeChars
    rw [if_neg (not_not_intro hcw2)]
    rw [if_neg (by simp)]
    rw [ByteBuffer.addBytes_eq _ _
      (by
        show (s.buffer.data.take s.buffer.length ++
            bitsToBytes s.buffer.order (l.length % 2 ^ 16) 16 ++
            s.buffer.data.drop (s.buffer.length + 16 / 8)).length = s.buffer.capacity
        simp only [List.length_append, List.length_take, List.length_drop, hlb]
        omega)
      (by
        show s.buffer.length + 16 / 8 + l.length ≤ s.buffer.capacity
        omega)]
    have hn1 : s.buffer.length + 16 / 8 =
        (s.buffer.data.take s.buffer.length).length +
        (bitsToBytes s.buffer.order (l.length % 2 ^ 16) 16).length := by
      rw [hlb, List.length_take_of_le (by omega)]
    refine ⟨rfl, ?_, ?_⟩
    · show s.buffer.length + 16 / 8 + l.length = s.buffer.length + (2 + l.length)
      omega
    · show (s.buffer.data.take s.buffer.length ++
          bitsToBytes s.buffer.order (l.length % 2 ^ 16) 16 ++
          s.buffer.data.drop (s.buffer.length + 16 / 8)).take (s.buffer.length + 16 / 8) ++
        l.map (fun v => v % 256) ++
        (s.buffer.data.take s.buffer.length ++
          bitsToBytes s.buffer.order (l.length % 2 ^ 16) 16 ++
          s.buffer.data.drop (s.buffer.length + 16 / 8)).drop
            (s.buffer.length + 16 / 8 + l.length) = _
      rw [take_pre_mid _ _ _ _ hn1, drop_pre_mid _ _ _ _ l.length hn1, List.drop_drop]
      rw [show s.buffer.length + 16 / 8 + l.length = s.buffer.length + (2 + l.length)
        from by omega]
      rw [hmod]
      simp [List.append_assoc]

/-- Witness for C7: an over-long string fails and appends nothing; "Hero"
writes successfully. -/
theorem C7_writeString_encoding_witness :
    ((⟨ByteBuffer.mk0 4 Endian.Little, 0⟩ : ByteStream).writeString
        (some (List.replicate 65536 0)) =
      (false, (⟨ByteBuffer.mk0 4 Endian.Little, 0⟩ : ByteStream))) ∧
    ((⟨ByteBuffer.mk0 8 Endian.Big, 0⟩ : ByteStream).writeString
        (some [72, 101, 114, 111])).1 = true := by
  constructor
  · exact (C7_writeString_encoding ⟨ByteBuffer.mk0 4 Endian.Little, 0⟩
      (List.replicate 65536 0) (by decide)).1 (by rw [List.length_replicate]; omega)
  · exact ((C7_writeString_encoding ⟨ByteBuffer.mk0 8 Endian.Big, 0⟩
      [72, 101, 114, 111] (by decide)).2.1 (by decide) (by decide)).1

/-! ## C6: sign extension on signed reads -/

theorem signExt_of (w u : Nat) (hw0 : 0 < w) (hw64 : w ≤ 64) (hu : u < 2 ^ w) :
    signExt w u (if u < 2 ^ (w - 1) then (u : Int) else (u : Int) - 2 ^ w) := by
  have hple : (2 : Nat) ^ w ≤ 2 ^ 64 := Nat.pow_le_pow_right (by omega) hw64
  have hmod0 : ((2 : Nat) ^ 64 - 2 ^ w) % 2 ^ w = 0 := by
    have hsh : (2 : Nat) ^ 64 - 2 ^ w = (2 ^ (64 - w) - 1) <<< w := by
      rw [Nat.shiftLeft_eq, Nat.sub_mul, Nat.one_mul, ← Nat.pow_add]
      congr 2
      omega
    rw [hsh, Nat.shiftLeft_eq, Nat.mul_mod_left]
  by_cases hc : u < 2 ^ (w - 1)
  · rw [if_pos hc]
    have hp : (((u : Nat) : Int) % (2 ^ 64 : Int)).toNat = u := by
      rw [Int.emod_eq_of_lt (Int.natCast_nonneg _)
        (by exact_mod_cast lt_of_lt_of_le hu hple)]
      exact Int.toNat_ofNat u
    constructor
    · rw [hp]; exact Nat.mod_eq_of_lt hu
    · intro j hj64 hjw
      rw [hp, Nat.testBit_lt_two_pow (lt_of_lt_of_le hu (Nat.pow_le_pow_right (by omega) hjw)),
        Nat.testBit_lt_two_pow hc]
  · rw [if_neg hc]
    have hsh : (2 : Nat) ^ 64 - 2 ^ w = (2 ^ (64 - w) - 1) <<< w := by
      rw [Nat.shiftLeft_eq, Nat.sub_mul, Nat.one_mul, ← Nat.pow_add]
      congr 2
      omega
    have hN : (2 : Nat) ^ 64 - 2 ^ w + u < 2 ^ 64 := by omega
    have hcast : ((u : Int) - 2 ^ w) =
        ((2 ^ 64 - 2 ^ w + u : Nat) : Int) + (2 ^ 64 : Int) * (-1) := by
      rw [Nat.cast_add, Nat.cast_sub hple]
      push_cast
      ring
    have hp : (((u : Int) - 2 ^ w) % (2 ^ 64 : Int)).toNat = 2 ^ 64 - 2 ^ w + u := by
      rw [hcast, Int.add_mul_emod_self_left,
        Int.emod_eq_of_lt (Int.natCast_nonneg _) (by exact_mod_cast hN),
        Int.toNat_ofNat]
    constructor
    · rw [hp, Nat.add_mod, hmod0, Nat.zero_add,
        Nat.mod_mod_of_dvd u (dvd_refl _), Nat.mod_eq_of_lt hu]
    · intro j hj64 hjw
      rw [hp]
      have hor : (2 : Nat) ^ 64 - 2 ^ w + u = ((2 ^ (64 - w) - 1) <<< w) ||| u := by
        rw [hsh]
        exact (lor_add_of w _ u (by rw [Nat.shiftLeft_eq]; exact Nat.mul_mod_left _ _) hu).symm
      rw [hor, Nat.testBit_lor, Nat.testBit_shiftLeft, Nat.testBit_two_pow_sub_one]
      rw [Nat.testBit_lt_two_pow (lt_of_lt_of_le hu (Nat.pow_le_pow_right (by omega) hjw))]
      have htop : u.testBit (w - 1) = true := by
        rw [Nat.testBit_to_div_mod]
        have h2 : 2 ^ (w - 1) * 2 = 2 ^ w := by
          rw [← Nat.pow_succ]
          congr 1
          omega
        have hdiv : u / 2 ^ (w - 1) = 1 :=
          Nat.div_eq_of_lt_le (by omega) (by omega)
        rw [hdiv]
        decide
      rw [htop]
      simp only [Bool.or_false, Bool.and_eq_true, decide_eq_true_eq]
      exact ⟨hjw, by omega⟩

theorem getD_lt_256 (b : ByteBuffer) (hWF : ∀ x ∈ b.data, x < 256) (i : Nat) :
    b.data.getD i 0 < 256 := by
  rw [List.getD_eq_getElem?_getD]
  cases h : b.data[i]? with
  | none => simp
  | some x => simpa using hWF x (List.getElem?_mem h)

theorem intCast8_eq (u : Nat) (hu : u < 256) :
    intCast 8 ((u : Nat) : Int) =
      if u < 2 ^ (8 - 1) then ((u : Nat) : Int) else ((u : Nat) : Int) - 2 ^ 8 := by
  simp only [intCast]
  split <;> split <;> omega

theorem intCast_if (w u : Nat) (hw : w = 8 ∨ w = 16 ∨ w = 32) (hu : u < 2 ^ w) :
    intCast w (if u < 2 ^ (w - 1) then ((u : Nat) : Int) else ((u : Nat) : Int) - 2 ^ w) =
      (if u < 2 ^ (w - 1) then ((u : Nat) : Int) else ((u : Nat) : Int) - 2 ^ w) := by
  rcases hw with rfl | rfl | rfl <;>
    (split <;> (simp only [intCast]; split <;> omega))

theorem readInt8_eq (s : ByteStream) (hc : s.canRead 1 = true) :
    s.readInt8 = (true, intCast 8 ((s.buffer.data.getD s.readPos 0 : Nat) : Int),
      { s with readPos := s.readPos + 1 }) := by
  unfold ByteStream.readInt8
  rw [if_neg (not_not_intro hc), readUint8_eq s hc, if_neg (by simp)]

theorem readInt16_eq (s : ByteStream) (hc : s.canRead 2 = true) :
    s.readInt16 = (true, intCast 16 (interpretAsSigned ((s.readBits 16).2.1 % 2 ^ 16) 16).2,
      { s with readPos := s.readPos + 2 }) := by
  unfold ByteStream.readInt16
  rw [if_neg (not_not_intro hc), readUint16_eq s hc, if_neg (by simp)]

theorem readInt32_eq (s : ByteStream) (hc : s.canRead 4 = true) :
    s.readInt32 = (true, intCast 32 (interpretAsSigned ((s.readBits 32).2.1 % 2 ^ 32) 32).2,
      { s with readPos := s.readPos + 4 }) := by
  unfold ByteStream.readInt32
  rw [if_neg (not_not_intro hc), readUint32_eq s hc, if_neg (by simp)]

/-- C6: every signed read of declared width 8, 16 or 32 bits succeeds exactly
when the unsigned read of that width does, consumes the same bytes, and its
result is the two's-complement sign extension of the unsigned bit pattern:
the low w bits of the result's 64-bit pattern reproduce the unsigned value
and every bit above declared width w (up to bit 63) equals the pattern's top
bit. -/
theorem C6_signed_read_sign_extension (s : ByteStream)
    (hWF : ∀ x ∈ s.buffer.data, x < 256) :
    ((s.readInt8).1 = (s.readUint8).1 ∧
      ((s.readUint8).1 = true →
        (s.readInt8).2.2 = (s.readUint8).2.2 ∧
        signExt 8 (s.readUint8).2.1 (s.readInt8).2.1)) ∧
    ((s.readInt16).1 = (s.readUint16).1 ∧
      ((s.readUint16).1 = true →
        (s.readInt16).2.2 = (s.readUint16).2.2 ∧
        signExt 16 (s.readUint16).2.1 (s.readInt16).2.1)) ∧
    ((s.readInt32).1 = (s.readUint32).1 ∧
      ((s.readUint32).1 = true →
        (s.readInt32).2.2 = (s.readUint32).2.2 ∧
        signExt 32 (s.readUint32).2.1 (s.readInt32).2.1)) := by
  refine ⟨?_, ?_, ?_⟩
  · by_cases hc : s.canRead 1 = true
    · have h8 := readUint8_eq s hc
      have hi8 := readInt8_eq s hc
      have hu : s.buffer.data.getD s.readPos 0 < 256 := getD_lt_256 s.buffer hWF _
      refine ⟨by rw [h8, hi8], fun _ => ⟨by rw [h8, hi8], ?_⟩⟩
      rw [h8, hi8]
      show signExt 8 (s.buffer.data.getD s.readPos 0)
        (intCast 8 ((s.buffer.data.getD s.readPos 0 : Nat) : Int))
      rw [intCast8_eq _ hu]
      exact signExt_of 8 _ (by omega) (by omega) hu
    · refine ⟨?_, fun htrue => absurd (readUint8_canRead s htrue) hc⟩
      unfold ByteStream.readInt8 ByteStream.readUint8
      rw [if_pos hc, if_pos hc]
  · by_cases hc : s.canRead 2 = true
    · have h16 := readUint16_eq s hc
      have hi16 := readInt16_eq s hc
      have hu : (s.readBits 16).2.1 % 2 ^ 16 < 2 ^ 16 := Nat.mod_lt _ (by norm_num)
      refine ⟨by rw [h16, hi16], fun _ => ⟨by rw [h16, hi16], ?_⟩⟩
      rw [h16, hi16]
      show signExt 16 ((s.readBits 16).2.1 % 2 ^ 16)
        (intCast 16 (interpretAsSigned ((s.readBits 16).2.1 % 2 ^ 16) 16).2)
      rw [interpretAsSigned_spec 16 _ (by omega) hu]
      rw [intCast_if 16 _ (by omega) hu]
      exact signExt_of 16 _ (by omega) (by omega) hu
    · refine ⟨?_, fun htrue => absurd (readUint16_canRead s htrue) hc⟩
      unfold ByteStream.readInt16 ByteStream.readUint16
      rw [if_pos hc, if_pos hc]
  · by_cases hc : s.canRead 4 = true
    · have h32 := readUint32_eq s hc
      have hi32 := readInt32_eq s hc
      have hu : (s.readBits 32).2.1 % 2 ^ 32 < 2 ^ 32 := Nat.mod_lt _ (by norm_num)
      refine ⟨by rw [h32, hi32], fun _ => ⟨by rw [h32, hi32], ?_⟩⟩
      rw [h32, hi32]
      show signExt 32 ((s.readBits 32).2.1 % 2 ^ 32)
        (intCast 32 (interpretAsSigned ((s.readBits 32).2.1 % 2 ^ 32) 32).2)
      rw [interpretAsSigned_spec 32 _ (by omega) hu]
      rw [intCast_if 32 _ (by omega) hu]
      exact signExt_of 32 _ (by omega) (by omega) hu
    · refine ⟨?_, fun htrue => absurd (readUint32_canRead s htrue) hc⟩
      unfold ByteStream.readInt32 ByteStream.readUint32
      rw [if_pos hc, if_pos hc]

/-- Witness for C6: reading the byte 0xFE as int8 gives -2 with all high
pattern bits set; the property holds on a concrete two-byte stream. -/
theorem C6_signed_read_sign_extension_witness :
    ((⟨⟨[0xFE, 0xFF], 2, 2, Endian.Big⟩, 0⟩ : ByteStream).readInt8).2.1 = -2 ∧
    signExt 8 ((⟨⟨[0xFE, 0xFF], 2, 2, Endian.Big⟩, 0⟩ : ByteStream).readUint8).2.1
      ((⟨⟨[0xFE, 0xFF], 2, 2, Endian.Big⟩, 0⟩ : ByteStream).readInt8).2.1 := by
  refine ⟨by decide, ?_⟩
  exact ((C6_signed_read_sign_extension ⟨⟨[0xFE, 0xFF], 2, 2, Endian.Big⟩, 0⟩
    (by decide)).1.2 (by decide)).2

/-! ## JsonStream claims -/

/-- C9: constructing a JsonStream over a region that is already at full
capacity silently drops the opening brace: the constructor reports nothing,
the region is unchanged, the builder starts in the Open-Empty state
(isFirstField true, isClosed false), the text view is exactly the
pre-existing bytes with no brace added, and even close fails on the full
region. -/
theorem C9_full_buffer_constructor (b : ByteBuffer) (hfull : b.capacity ≤ b.length) :
    JsonStream.make b = ⟨b, true, false⟩ ∧
    (JsonStream.make b).getJson = b.data.take b.length ∧
    ((JsonStream.make b).close).1 = false := by
  have hf : b.isFull = true := by
    simp only [ByteBuffer.isFull, ge_iff_le, decide_eq_true_eq]
    omega
  have hab : b.addByte 123 = (false, b) := by simp [ByteBuffer.addByte, hf]
  have hm : JsonStream.make b = ⟨b, true, false⟩ := by
    unfold JsonStream.make
    rw [hab]
  refine ⟨hm, by rw [hm]; rfl, ?_⟩
  rw [hm]
  unfold JsonStream.close
  rw [if_neg (by simp)]
  rw [show b.addByte 125 = (false, b) from by simp [ByteBuffer.addByte, hf]]
  rfl

/-- Witness for C9: a 1-byte buffer already holding one byte. -/
theorem C9_full_buffer_constructor_witness :
    JsonStream.make ⟨[88], 1, 1, Endian.Little⟩ =
      ⟨⟨[88], 1, 1, Endian.Little⟩, true, false⟩ ∧
    (JsonStream.make ⟨[88], 1, 1, Endian.Little⟩).getJson = [88] :=
  have h := C9_full_buffer_constructor ⟨[88], 1, 1, Endian.Little⟩ (by decide)
  ⟨h.1, by rw [h.2.1]; decide⟩

/-- C2 counterexample: on a 7-byte region, JsonBuilder writeBool has too
little remaining space for the full field, returns failure, and leaves the
already-written key bytes in the region: the length grows from 1 to 5, so
the failed operation is not a no-op. -/
theorem C2_counterexample_writeBool_partial :
    (JsonStream.make (ByteBuffer.mk0 7 Endian.Little)).buffer.getSpaceLeft = 6 ∧
    ((JsonStream.make (ByteBuffer.mk0 7 Endian.Little)).writeBool [107] true).1 = false ∧
    (JsonStream.make (ByteBuffer.mk0 7 Endian.Little)).buffer.length = 1 ∧
    ((JsonStream.make (ByteBuffer.mk0 7 Endian.Little)).writeBool
        [107] true).2.buffer.length = 5 := by
  decide

theorem writeBits_fail_noop (s : ByteStream) (val w : Nat)
    (h : (s.writeBits val w).1 = false) : (s.writeBits val w).2 = s := by
  unfold ByteStream.writeBits
  split
  · rfl
  · split
    · rfl
    · next h1 h2 =>
      exfalso
      unfold ByteStream.writeBits at h
      rw [if_neg h1, if_neg h2] at h
      simp at h

theorem writeUint8_fail_noop (s : ByteStream) (v : Nat)
    (h : (s.writeUint8 v).1 = false) : (s.writeUint8 v).2 = s := by
  unfold ByteStream.writeUint8 ByteBuffer.addByte at h ⊢
  split at h
  · next hf =>
    rw [if_pos hf]
  · simp at h

theorem writeChars_fail_noop (s : ByteStream) (l : List Nat)
    (h : (s.writeChars l).1 = false) : (s.writeChars l).2 = s := by
  unfold ByteStream.writeChars at h ⊢
  split at h
  · next h1 => rw [if_pos h1]
  · simp at h

theorem addBytes_length_of_room (b : ByteBuffer) (l : List Nat)
    (h : b.length + l.length ≤ b.capacity) :
    (b.addBytes l).length = b.length + l.length := by
  induction l generalizing b with
  | nil => rfl
  | cons v l ih =>
    have hfull : b.isFull = false := by
      simp only [ByteBuffer.isFull, ge_iff_le, decide_eq_false_iff_not]
      simp only [List.length_cons] at h
      omega
    show ((b.addByte v).2.addBytes l).length = _
    have hb1 : (b.addByte v).2 =
        { b with data := b.data.set b.length (v % 256), length := b.length + 1 } := by
      simp [ByteBuffer.addByte, hfull]
    rw [hb1, ih _ (by simp only [List.length_cons] at h ⊢; omega)]
    simp only [List.length_cons]
    omega

theorem writeBits_success_of_room (s : ByteStream) (val w : Nat) (hw0 : w ≠ 0)
    (hw8 : w % 8 = 0) (hsp : s.canWrite (w / 8) = true) :
    (s.writeBits val w).1 = true := by
  unfold ByteStream.writeBits
  rw [if_neg (by omega), if_neg (not_not_intro hsp)]

theorem writeString_fail_noop (s : ByteStream) (str : Option (List Nat))
    (h : (s.writeString str).1 = false) : (s.writeString str).2 = s := by
  match str with
  | none => exact writeBits_fail_noop s (0 % 2 ^ 16) 16 h
  | some l =>
    unfold ByteStream.writeString at h ⊢
    dsimp only at h ⊢
    by_cases hg : l.length > 65535 ∨ ¬ s.canWrite (2 + l.length) = true
    · rw [if_pos hg]
    · rw [if_neg hg] at h ⊢
      push_neg at hg
      have hsp : s.buffer.capacity - s.buffer.length ≥ 2 + l.length := by
        have := hg.2
        simpa [ByteStream.canWrite, ByteBuffer.getSpaceLeft] using this
      have h1 : (s.writeUint16 l.length).1 = true :=
        writeBits_success_of_room s (l.length % 2 ^ 16) 16 (by omega) (by omega)
          (by simp only [ByteStream.canWrite, ByteBuffer.getSpaceLeft, ge_iff_le,
                decide_eq_true_eq]; omega)
      rw [if_neg (by simp [h1])] at h ⊢
      have hlen1 : (s.writeUint16 l.length).2.buffer.length = s.buffer.length + 2 := by
        show ((s.writeBits (l.length % 2 ^ 16) 16).2).buffer.length = _
        unfold ByteStream.writeBits
        rw [if_neg (by omega), if_neg (by
          simp only [ByteStream.canWrite, ByteBuffer.getSpaceLeft, ge_iff_le, not_not,
            decide_eq_true_eq]
          omega)]
        show (s.buffer.addBytes (bitsToBytes s.buffer.order (l.length % 2 ^ 16) 16)).length = _
        rw [addBytes_length_of_room _ _ (by rw [bitsToBytes_length]; omega),
          bitsToBytes_length]
      have hcap1 : (s.writeUint16 l.length).2.buffer.capacity = s.buffer.capacity := by
        show ((s.writeBits (l.length % 2 ^ 16) 16).2).buffer.capacity = _
        unfold ByteStream.writeBits
        split
        · rfl
        · split
          · rfl
          · exact ByteBuffer.addBytes_capacity _ _
      have h2 : ((s.writeUint16 l.length).2.writeChars l).1 = true := by
        unfold ByteStream.writeChars
        rw [if_neg (by
          simp only [ByteStream.canWrite, ByteBuffer.getSpaceLeft, ge_iff_le, not_not,
            decide_eq_true_eq, hlen1, hcap1]
          omega)]
      rw [if_neg (by simp [h2])] at h
      simp at h

theorem writeLibraryHeader_fail_noop (s : ByteStream)
    (h : (s.writeLibraryHeader).1 = false) : (s.writeLibraryHeader).2 = s := by
  unfold ByteStream.writeLibraryHeader at h ⊢
  split at h
  · next h1 => rw [if_pos h1]
  · simp at h

theorem addByte_len_mono (b : ByteBuffer) (v : Nat) :
    b.length ≤ ((b.addByte v).2).length := by
  unfold ByteBuffer.addByte
  split
  · exact Nat.le_refl _
  · exact Nat.le_succ _

theorem addBytes_len_mono (b : ByteBuffer) (l : List Nat) :
    b.length ≤ (b.addBytes l).length := by
  induction l generalizing b with
  | nil => exact Nat.le_refl _
  | cons v l ih =>
    show b.length ≤ ((b.addByte v).2.addBytes l).length
    exact Nat.le_trans (addByte_len_mono b v) (ih _)

theorem writeRaw_len_mono (js : JsonStream) (l : List Nat) :
    js.buffer.length ≤ ((js.writeRaw l).2).buffer.length := by
  unfold JsonStream.writeRaw
  split
  · exact Nat.le_refl _
  · exact addBytes_len_mono _ _

theorem startField_len_mono (js : JsonStream) (key : List Nat) :
    js.buffer.length ≤ ((js.startField key).2).buffer.length := by
  unfold JsonStream.startField
  by_cases hcl : js.isClosed
  · rw [if_pos hcl]
  · rw [if_neg hcl]
    by_cases hff : js.isFirstField = true
    · rw [if_pos hff]
      dsimp only
      rw [if_neg (by simp)]
      split
      · exact addByte_len_mono js.buffer 34
      · split
        · exact Nat.le_trans (addByte_len_mono js.buffer 34)
            (writeRaw_len_mono ⟨(js.buffer.addByte 34).2, false, js.isClosed⟩ key)
        · exact Nat.le_trans (addByte_len_mono js.buffer 34)
            (Nat.le_trans
              (writeRaw_len_mono ⟨(js.buffer.addByte 34).2, false, js.isClosed⟩ key)
              (writeRaw_len_mono
                ((⟨(js.buffer.addByte 34).2, false, js.isClosed⟩ :
                  JsonStream).writeRaw key).2 [34, 58]))
    · rw [if_neg hff]
      dsimp only
      split
      · exact addByte_len_mono js.buffer 44
      · split
        · exact Nat.le_trans (addByte_len_mono js.buffer 44)
            (addByte_len_mono (js.buffer.addByte 44).2 34)
        · split
          · exact Nat.le_trans (addByte_len_mono js.buffer 44)
              (Nat.le_trans (addByte_len_mono (js.buffer.addByte 44).2 34)
                (writeRaw_len_mono
                  ⟨((js.buffer.addByte 44).2.addByte 34).2, false, js.isClosed⟩ key))
          · exact Nat.le_trans (addByte_len_mono js.buffer 44)
              (Nat.le_trans (addByte_len_mono (js.buffer.addByte 44).2 34)
                (Nat.le_trans
                  (writeRaw_len_mono
                    ⟨((js.buffer.addByte 44).2.addByte 34).2, false, js.isClosed⟩ key)
                  (writeRaw_len_mono
                    ((⟨((js.buffer.addByte 44).2.addByte 34).2, false, js.isClosed⟩ :
                      JsonStream).writeRaw key).2 [34, 58])))

theorem writeBool_len_mono (js : JsonStream) (key : List Nat) (bv : Bool) :
    js.buffer.length ≤ ((js.writeBool key bv).2).buffer.length := by
  unfold JsonStream.writeBool
  dsimp only
  split
  · exact startField_len_mono js key
  · split
    · exact Nat.le_trans (startField_len_mono js key) (writeRaw_len_mono _ _)
    · exact Nat.le_trans (startField_len_mono js key) (writeRaw_len_mono _ _)

/-- C2 amended: every BinaryCodec write operation that returns failure leaves
the stream completely unchanged (a no-op); the corresponding guarantee does
not extend to the JsonBuilder field writes (see the counterexample), though a
failed JsonBuilder writeBool never shrinks the region. -/
theorem C2_capacity_failure_noop (s : ByteStream) (val w v8 : Nat) (l : List Nat)
    (str : Option (List Nat)) (vi : Int) (bits : Nat) (bv : Bool)
    (js : JsonStream) (key : List Nat) :
    ((s.writeBits val w).1 = false → (s.writeBits val w).2 = s) ∧
    ((s.writeUint8 v8).1 = false → (s.writeUint8 v8).2 = s) ∧
    ((s.writeUint16 v8).1 = false → (s.writeUint16 v8).2 = s) ∧
    ((s.writeUint32 v8).1 = false → (s.writeUint32 v8).2 = s) ∧
    ((s.writeUint64 v8).1 = false → (s.writeUint64 v8).2 = s) ∧
    ((s.writeInt8 vi).1 = false → (s.writeInt8 vi).2 = s) ∧
    ((s.writeInt16 vi).1 = false → (s.writeInt16 vi).2 = s) ∧
    ((s.writeInt32 vi).1 = false → (s.writeInt32 vi).2 = s) ∧
    ((s.writeInt64 vi).1 = false → (s.writeInt64 vi).2 = s) ∧
    ((s.writeFloat bits).1 = false → (s.writeFloat bits).2 = s) ∧
    ((s.writeDouble bits).1 = false → (s.writeDouble bits).2 = s) ∧
    ((s.writeBool bv).1 = false → (s.writeBool bv).2 = s) ∧
    ((s.writeChars l).1 = false → (s.writeChars l).2 = s) ∧
    ((s.writeString str).1 = false → (s.writeString str).2 = s) ∧
    ((s.writeLibraryHeader).1 = false → (s.writeLibraryHeader).2 = s) ∧
    ((js.writeBool key bv).1 = false →
      js.buffer.length ≤ (js.writeBool key bv).2.buffer.length) := by
  refine ⟨writeBits_fail_noop s val w, writeUint8_fail_noop s v8,
    writeBits_fail_noop s _ 16, writeBits_fail_noop s _ 32, writeBits_fail_noop s _ 64,
    writeBits_fail_noop s _ 8, writeBits_fail_noop s _ 16, writeBits_fail_noop s _ 32,
    writeBits_fail_noop s _ 64, writeBits_fail_noop s _ 32, writeBits_fail_noop s _ 64,
    writeUint8_fail_noop s _, writeChars_fail_noop s l, writeString_fail_noop s str,
    writeLibraryHeader_fail_noop s, ?_⟩
  intro _
  exact writeBool_len_mono js key bv

/-- Witness for C2: writing two bytes into a stream with one byte of space
fails and leaves the stream untouched. -/
theorem C2_capacity_failure_noop_witness :
    ((⟨ByteBuffer.mk0 1 Endian.Little, 0⟩ : ByteStream).writeBits 0xFFFF 16).1 = false ∧
    ((⟨ByteBuffer.mk0 1 Endian.Little, 0⟩ : ByteStream).writeBits 0xFFFF 16).2 =
      ⟨ByteBuffer.mk0 1 Endian.Little, 0⟩ := by
  refine ⟨by decide, ?_⟩
  exact (C2_capacity_failure_noop ⟨ByteBuffer.mk0 1 Endian.Little, 0⟩ 0xFFFF 16 0 [] none
    0 0 false (JsonStream.make (ByteBuffer.mk0 1 Endian.Little)) []).1 (by decide)

theorem writeRaw_capacity (js : JsonStream) (l : List Nat) :
    ((js.writeRaw l).2).buffer.capacity = js.buffer.capacity := by
  unfold JsonStream.writeRaw
  split
  · rfl
  · exact ByteBuffer.addBytes_capacity _ _

theorem writeRaw_isClosed (js : JsonStream) (l : List Nat) :
    ((js.writeRaw l).2).isClosed = js.isClosed := by
  unfold JsonStream.writeRaw
  split <;> rfl

theorem writeRaw_isFirstField (js : JsonStream) (l : List Nat) :
    ((js.writeRaw l).2).isFirstField = js.isFirstField := by
  unfold JsonStream.writeRaw
  split <;> rfl

/-- JsonStream::startField preserves the buffer's capacity and the isClosed
flag, and whenever it succeeds it has cleared isFirstField (the stream must
also have been open). -/
theorem startField_spec (js : JsonStream) (key : List Nat) :
    ((js.startField key).2).buffer.capacity = js.buffer.capacity ∧
    ((js.startField key).2).isClosed = js.isClosed ∧
    ((js.startField key).1 = true →
      ((js.startField key).2).isFirstField = false ∧ js.isClosed = false) := by
  unfold JsonStream.startField
  by_cases hcl : js.isClosed
  · rw [if_pos hcl]
    exact ⟨rfl, rfl, fun h => by simp at h⟩
  · rw [if_neg hcl]
    have hclf : js.isClosed = false := by simpa using hcl
    by_cases hff : js.isFirstField = true
    · rw [if_pos hff]
      dsimp only
      rw [if_neg (by simp)]
      split
      · exact ⟨ByteBuffer.addByte_capacity _ _, rfl, fun h => by simp at h⟩
      · split
        · exact ⟨(writeRaw_capacity _ _).trans (ByteBuffer.addByte_capacity _ _),
            writeRaw_isClosed _ _, fun h => by simp at h⟩
        · refine ⟨?_, ?_, fun _ => ⟨?_, hclf⟩⟩
          · exact (writeRaw_capacity _ _).trans
              ((writeRaw_capacity _ _).trans (ByteBuffer.addByte_capacity _ _))
          · exact (writeRaw_isClosed _ _).trans (writeRaw_isClosed _ _)
          · exact (writeRaw_isFirstField _ _).trans (writeRaw_isFirstField _ _)
    · rw [if_neg hff]
      dsimp only
      split
      · exact ⟨ByteBuffer.addByte_capacity _ _, rfl, fun h => by simp_all⟩
      · split
        · exact ⟨(ByteBuffer.addByte_capacity _ _).trans (ByteBuffer.addByte_capacity _ _), rfl,
            fun h => by simp at h⟩
        · split
          · exact ⟨(writeRaw_capacity _ _).trans
              ((ByteBuffer.addByte_capacity _ _).trans (ByteBuffer.addByte_capacity _ _)),
              writeRaw_isClosed _ _, fun h => by simp at h⟩
          · refine ⟨?_, ?_, fun _ => ⟨?_, hclf⟩⟩
            · exact (writeRaw_capacity _ _).trans
                ((writeRaw_capacity _ _).trans
                  ((ByteBuffer.addByte_capacity _ _).trans (ByteBuffer.addByte_capacity _ _)))
            · exact (writeRaw_isClosed _ _).trans (writeRaw_isClosed _ _)
            · exact (writeRaw_isFirstField _ _).trans (writeRaw_isFirstField _ _)

/-- C3 counterexample: on a 2-byte region (only the opening brace and one
more byte fit), writeObject's key-writing step partially writes the opening
quote and then fails; writeObject returns failure WITHOUT restoring the
region length (2 instead of 1) and with isFirstField cleared (false instead
of the parent's true), so the claimed full rollback does not happen. -/
theorem C3_counterexample_partial_key :
    ((JsonStream.make (ByteBuffer.mk0 2 Endian.Little)).writeObject [107]
        (fun t => (true, t))).1 = false ∧
    (JsonStream.make (ByteBuffer.mk0 2 Endian.Little)).buffer.length = 1 ∧
    ((JsonStream.make (ByteBuffer.mk0 2 Endian.Little)).writeObject [107]
        (fun t => (true, t))).2.buffer.length = 2 ∧
    (JsonStream.make (ByteBuffer.mk0 2 Endian.Little)).isFirstField = true ∧
    ((JsonStream.make (ByteBuffer.mk0 2 Endian.Little)).writeObject [107]
        (fun t => (true, t))).2.isFirstField = false := by
  decide

/-- C3 amended: when the key-writing step (startField) succeeds and a later
step of writeObject fails (the opening brace append or the nested object's
own field writes), the region length is rolled back to its pre-call value
and isClosed is restored; isFirstField however is restored only to its
post-key value false, not to the parent's original value.  (A failure inside
startField itself performs no rollback at all — see the counterexample.) -/
theorem C3_nested_write_rollback (js : JsonStream) (key : List Nat)
    (f : JsonStream → Bool × JsonStream)
    (hlen : js.buffer.length ≤ js.buffer.capacity)
    (hf : ∀ t, ((f t).2).buffer.capacity = t.buffer.capacity)
    (hsf : (js.startField key).1 = true)
    (hfail : (js.writeObject key f).1 = false) :
    (js.writeObject key f).2.buffer.length = js.buffer.length ∧
    (js.writeObject key f).2.isClosed = js.isClosed ∧
    (js.writeObject key f).2.isFirstField = false := by
  obtain ⟨hcap, hclosed, hffc⟩ := startField_spec js key
  have hff' := (hffc hsf).1
  unfold JsonStream.writeObject at hfail ⊢
  dsimp only at hfail ⊢
  rw [if_neg (show ¬ (js.startField key).1 = false by rw [hsf]; simp)] at hfail ⊢
  by_cases hrb : ((js.startField key).2.buffer.addByte 123).1 = false
  · rw [if_pos hrb] at hfail ⊢
    have hslcap : ((js.startField key).2.buffer.addByte 123).2.capacity =
        js.buffer.capacity := (ByteBuffer.addByte_capacity _ _).trans hcap
    refine ⟨?_, hclosed, hff'⟩
    show ((((js.startField key).2.buffer.addByte 123).2.setLength
      js.buffer.getSize).2).length = js.buffer.length
    unfold ByteBuffer.setLength
    rw [if_neg (by rw [hslcap]; show ¬ js.buffer.length > js.buffer.capacity; omega)]
    rfl
  · rw [if_neg hrb] at hfail ⊢
    by_cases hrf : (f ⟨((js.startField key).2.buffer.addByte 123).2, true, false⟩).1 = false
    · rw [if_pos hrf] at hfail ⊢
      have hfcap : (f ⟨((js.startField key).2.buffer.addByte 123).2, true,
          false⟩).2.buffer.capacity = js.buffer.capacity := by
        rw [hf ⟨((js.startField key).2.buffer.addByte 123).2, true, false⟩]
        exact (ByteBuffer.addByte_capacity _ _).trans hcap
      refine ⟨?_, hclosed, hff'⟩
      show (((f ⟨((js.startField key).2.buffer.addByte 123).2, true,
        false⟩).2.buffer.setLength js.buffer.getSize).2).length = js.buffer.length
      unfold ByteBuffer.setLength
      rw [if_neg (by rw [hfcap]; show ¬ js.buffer.length > js.buffer.capacity; omega)]
      rfl
    · rw [if_neg hrf] at hfail
      simp at hfail

/-- Witness for C3: a nested write whose inner routine fails is rolled back
(length restored to 1, flags as described). -/
theorem C3_nested_write_rollback_witness :
    ((JsonStream.make (ByteBuffer.mk0 8 Endian.Little)).writeObject [107]
        (fun t => (false, t))).2.buffer.length =
      (JsonStream.make (ByteBuffer.mk0 8 Endian.Little)).buffer.length ∧
    ((JsonStream.make (ByteBuffer.mk0 8 Endian.Little)).writeObject [107]
        (fun t => (false, t))).2.isClosed =
      (JsonStream.make (ByteBuffer.mk0 8 Endian.Little)).isClosed ∧
    ((JsonStream.make (ByteBuffer.mk0 8 Endian.Little)).writeObject [107]
        (fun t => (false, t))).2.isFirstField = false :=
  C3_nested_write_rollback (JsonStream.make (ByteBuffer.mk0 8 Endian.Little)) [107]
    (fun t => (false, t)) (by decide) (fun t => rfl) (by decide) (by decide)

/-! ## C8: pretty printer -/

theorem filter_printIndent (lvl : Int) (tw : Nat) :
    (printIndent lvl tw).filter (fun c => !(isWS c)) = [] := by
  unfold printIndent
  split
  · rfl
  · rw [List.filter_eq_nil_iff]
    intro a ha
    rw [List.eq_of_mem_replicate ha]
    decide

/-- Core of the amended C8: when the printer's scan meets no whitespace
while its quote flag is off, the output is the input with only whitespace
characters inserted: the input is a subsequence of the output and both have
the same non-whitespace characters. -/
theorem prettyAux_insert_only (tw : Nat) :
    ∀ (s : List Nat) (prev : Option Nat) (lvl : Int) (q : Bool),
      noWSOutside prev q s = true →
      s.Sublist (prettyAux tw prev lvl q s) ∧
      (prettyAux tw prev lvl q s).filter (fun c => !(isWS c)) =
        s.filter (fun c => !(isWS c)) := by
  intro s
  induction s with
  | nil => intro prev lvl q h; exact ⟨List.nil_sublist _, rfl⟩
  | cons c rest ih =>
    intro prev lvl q h
    unfold prettyAux
    unfold noWSOutside at h
    by_cases h1 : c = 34 ∧ prev ≠ some 92
    · rw [if_pos h1] at h ⊢
      obtain ⟨hs, hf⟩ := ih (some c) lvl (!q) h
      exact ⟨hs.cons₂ c, by simp only [List.filter_cons, hf]⟩
    · rw [if_neg h1] at h ⊢
      by_cases hq : q = true
      · rw [if_pos hq] at h ⊢
        obtain ⟨hs, hf⟩ := ih (some c) lvl q h
        exact ⟨hs.cons₂ c, by simp only [List.filter_cons, hf]⟩
      · rw [if_neg hq] at h ⊢
        have hnws : isWS c = false := by
          by_contra hcon
          rw [if_pos (by revert hcon; cases isWS c <;> simp)] at h
          simp at h
        rw [if_neg (by rw [hnws]; simp)] at h
        have hcWS : (fun x => !(isWS x)) c = true := by
          show (!(isWS c)) = true
          rw [hnws]
          rfl
        have h10 : (fun x => !(isWS x)) 10 = false := rfl
        have h32 : (fun x => !(isWS x)) 32 = false := rfl
        by_cases hb1 : c = 123 ∨ c = 91
        · rw [if_pos hb1]
          obtain ⟨hs, hf⟩ := ih (some c) (lvl + 1) q h
          refine ⟨((hs.trans (List.sublist_append_right _ _)).cons 10).cons₂ c, ?_⟩
          simp [List.filter_cons, List.filter_append, filter_printIndent, hcWS, h10, hf]
        · rw [if_neg hb1]
          by_cases hb2 : c = 125 ∨ c = 93
          · rw [if_pos hb2]
            obtain ⟨hs, hf⟩ := ih (some c) (lvl - 1) q h
            refine ⟨(((hs.cons₂ c).trans (List.sublist_append_right _ _)).cons 10), ?_⟩
            simp [List.filter_cons, List.filter_append, filter_printIndent, hcWS, h10, hf]
          · rw [if_neg hb2]
            by_cases hb3 : c = 44
            · rw [if_pos hb3]
              obtain ⟨hs, hf⟩ := ih (some c) lvl q h
              refine ⟨((hs.trans (List.sublist_append_right _ _)).cons 10).cons₂ c, ?_⟩
              simp [List.filter_cons, List.filter_append, filter_printIndent, hcWS, h10, hf]
            · rw [if_neg hb3]
              by_cases hb4 : c = 58
              · rw [if_pos hb4]
                obtain ⟨hs, hf⟩ := ih (some c) lvl q h
                refine ⟨((hs.cons 32).cons₂ c), ?_⟩
                simp [List.filter_cons, hcWS, h32, hf]
              · rw [if_neg hb4]
                rw [if_neg (of_decide_eq_false hnws)]
                obtain ⟨hs, hf⟩ := ih (some c) lvl q h
                exact ⟨hs.cons₂ c, by simp only [List.filter_cons, hf]⟩

/-- C8 counterexample: a compact text produced by the JsonBuilder itself
(writeString "k" 'a\' then writeString "m" "x y", then close) whose escaped
first value ends in a backslash.  The closing quote after the double
backslash does not toggle the printer's quote flag, the flag desynchronizes,
and the space inside "x y" is dropped while scanned outside quotes, so the
original text is not even a subsequence of the pretty output — no removal of
inserted whitespace can reproduce it. -/
theorem C8_counterexample_quote_desync :
    ((JsonStream.make (ByteBuffer.mk0 32 Endian.Little)).writeString [107]
        (some [97, 92])).1 = true ∧
    (((JsonStream.make (ByteBuffer.mk0 32 Endian.Little)).writeString [107]
        (some [97, 92])).2.writeString [109] (some [120, 32, 121])).1 = true ∧
    ((((JsonStream.make (ByteBuffer.mk0 32 Endian.Little)).writeString [107]
        (some [97, 92])).2.writeString [109] (some [120, 32, 121])).2.close).1 = true ∧
    (((((JsonStream.make (ByteBuffer.mk0 32 Endian.Little)).writeString [107]
        (some [97, 92])).2.writeString [109] (some [120, 32, 121])).2.close).2.getJson =
      [123, 34, 107, 34, 58, 34, 97, 92, 92, 34, 44,
       34, 109, 34, 58, 34, 120, 32, 121, 34, 125]) ∧
    ¬ ([123, 34, 107, 34, 58, 34, 97, 92, 92, 34, 44,
        34, 109, 34, 58, 34, 120, 32, 121, 34, 125] : List Nat).Sublist
      (printPretty [123, 34, 107, 34, 58, 34, 97, 92, 92, 34, 44,
        34, 109, 34, 58, 34, 120, 32, 121, 34, 125] 2) := by
  decide

/-- C8 amended: whenever the printer's scan meets no whitespace while its
quote flag is off (true for builder output unless a string value's escaped
form ends in a backslash immediately before its closing quote), the pretty
output is the compact text with only whitespace inserted: the text is a
subsequence of the output and the two agree character-for-character after
discarding whitespace, so removing the inserted whitespace reproduces the
original exactly.  The quote flag toggles only on a quote not preceded by a
backslash, and in-quote characters pass through unmodified (both visible in
the scan of prettyAux). -/
theorem C8_pretty_strip_roundtrip (s : List Nat) (tw : Nat)
    (h : noWSOutside none false s = true) :
    s.Sublist (printPretty s tw) ∧
    (printPretty s tw).filter (fun c => !(isWS c)) = s.filter (fun c => !(isWS c)) := by
  unfold printPretty
  by_cases h0 : s.length = 0
  · rw [if_pos h0, List.length_eq_zero.mp h0]
    exact ⟨List.nil_sublist _, rfl⟩
  · rw [if_neg h0]
    obtain ⟨hs, hf⟩ := prettyAux_insert_only tw s none 0 false h
    refine ⟨hs.trans (List.sublist_append_left _ _), ?_⟩
    rw [List.filter_append, hf]
    simp only [List.filter_cons, List.filter_nil, show (!(isWS 10)) = false from rfl,
      Bool.false_eq_true, if_false, List.append_nil]

/-- Witness for C8: a builder text with an escape and a space inside its
values round-trips through the printer. -/
theorem C8_pretty_strip_roundtrip_witness :
    noWSOutside none false
      [123, 34, 107, 34, 58, 34, 97, 92, 110, 98, 34, 44,
       34, 109, 34, 58, 34, 120, 32, 121, 34, 125] = true ∧
    ([123, 34, 107, 34, 58, 34, 97, 92, 110, 98, 34, 44,
      34, 109, 34, 58, 34, 120, 32, 121, 34, 125] : List Nat).Sublist
      (printPretty [123, 34, 107, 34, 58, 34, 97, 92, 110, 98, 34, 44,
        34, 109, 34, 58, 34, 120, 32, 121, 34, 125] 2) :=
  ⟨by decide,
   (C8_pretty_strip_roundtrip
     [123, 34, 107, 34, 58, 34, 97, 92, 110, 98, 34, 44,
      34, 109, 34, 58, 34, 120, 32, 121, 34, 125] 2 (by decide)).1⟩

end SerDeLite
